/- Verification development for the menu OCR parsing and vegetarian
classification service. The file shallowly embeds the text parser
(api/app/services/text_parser.py), the keyword classifier
(mcp/app/services/keyword_classifier.py), the classification coordinator
(mcp/app/tools/classify_and_calculate.py), the LLM response parser
(mcp/app/services/llm_classifier.py) and the HITL review reconciler
(api/app/routers/review.py), and proves theorems checking the
behavioural claims of the specification against the embedded code.

Conventions: Python floats are modelled as rationals; Python strings as
Lean strings, with the relevant `str` methods re-implemented on the
ASCII fragment the service handles (the `py*` helpers below). -/

import Mathlib

namespace MenuSpec

/-! ## Python string primitives (ASCII fragment) -/

/-- Whitespace characters of Python `str.strip` / regex `\s` (ASCII part:
space, tab, newline, vertical tab, form feed, carriage return). -/
def pyIsSpace (c : Char) : Bool :=
  c = ' ' || c = '\t' || c = '\n' || c = '\r' || c = Char.ofNat 11 || c = Char.ofNat 12

/-- Python `str.strip()` (ASCII whitespace). -/
def pyStrip (s : String) : String :=
  ⟨((s.data.dropWhile pyIsSpace).reverse.dropWhile pyIsSpace).reverse⟩

/-- Python `str.lower()` (ASCII). -/
def pyLower (s : String) : String :=
  ⟨s.data.map Char.toLower⟩

/-- Python `str.split(sep)` for a single-character separator: keeps empty
fields, including a trailing one. -/
def splitListOn (sep : Char) : List Char → List (List Char)
  | [] => [[]]
  | c :: rest =>
    if c = sep then [] :: splitListOn sep rest
    else
      match splitListOn sep rest with
      | [] => [[c]]
      | h :: t => (c :: h) :: t

/-- Python `text.split("\n")`. -/
def pySplitLines (s : String) : List String :=
  (splitListOn '\n' s.data).map fun l => (⟨l⟩ : String)

/-- Helper for `pySplitWs`: accumulates the current (reversed) token. -/
def wsTokensGo (cur : List Char) : List Char → List (List Char)
  | [] => if cur.isEmpty then [] else [cur.reverse]
  | c :: rest =>
    if pyIsSpace c then
      if cur.isEmpty then wsTokensGo [] rest else cur.reverse :: wsTokensGo [] rest
    else wsTokensGo (c :: cur) rest

/-- Python `str.split()` with no argument: splits on whitespace runs and
drops empty tokens. -/
def pySplitWs (s : String) : List String :=
  (wsTokensGo [] s.data).map fun l => (⟨l⟩ : String)

/-- Python `str.isupper()`: at least one cased character and every cased
character uppercase (ASCII: cased = alphabetic). -/
def pyIsUpper (s : String) : Bool :=
  s.data.any Char.isAlpha && s.data.all fun c => !c.isAlpha || c.isUpper

/-- Helper for `pyTitle`: the flag records whether the previous character
was alphabetic. -/
def pyTitleGo (prevAlpha : Bool) : List Char → List Char
  | [] => []
  | c :: rest =>
    (if c.isAlpha then (if prevAlpha then c.toLower else c.toUpper) else c)
      :: pyTitleGo c.isAlpha rest

/-- Python `str.title()` (ASCII): the first letter of every alphabetic run
is uppercased, later letters of the run lowercased. -/
def pyTitle (s : String) : String :=
  ⟨pyTitleGo false s.data⟩

/-- Collapses whitespace runs to a single space, Python
`re.sub(r"\s+", " ", s)`. The flag records whether we are inside a run
that has already emitted its space. -/
def collapseWsGo (inRun : Bool) : List Char → List Char
  | [] => []
  | c :: rest =>
    if pyIsSpace c then
      if inRun then collapseWsGo true rest else ' ' :: collapseWsGo true rest
    else c :: collapseWsGo false rest

/-! ## Rational arithmetic helpers

Python floats are modelled as exact rationals. All computation inside
the embedding goes through the kernel-computable primitives below
(`mkRat`, `Rat.blt`, integer arithmetic); bridge lemmas further down
identify them with the standard field and order operations of `ℚ`, which
the claim statements use. -/

/-- Addition on `ℚ` by numerator and denominator (equals `a + b`). -/
def qAdd (a b : ℚ) : ℚ := mkRat (a.num * b.den + b.num * a.den) (a.den * b.den)

/-- Subtraction on `ℚ` by numerator and denominator (equals `a - b`). -/
def qSub (a b : ℚ) : ℚ := mkRat (a.num * b.den - b.num * a.den) (a.den * b.den)

/-- Multiplication on `ℚ` by numerator and denominator (equals `a * b`). -/
def qMul (a b : ℚ) : ℚ := mkRat (a.num * b.num) (a.den * b.den)

/-- Strict comparison on `ℚ` as a boolean (equals `a < b`). -/
def qLt (a b : ℚ) : Bool := Rat.blt a b

/-- Non-strict comparison on `ℚ` as a boolean (equals `a ≤ b`). -/
def qLe (a b : ℚ) : Bool := !(Rat.blt b a)

/-- Floor of a rational (equals `⌊q⌋`; the denominator is positive, so
Euclidean division of the numerator is floor division). -/
def qFloor (q : ℚ) : ℤ := Int.ediv q.num q.den

/-- Python `sum` of a list of rationals (left fold from 0). -/
def qSum (l : List ℚ) : ℚ := l.foldl qAdd (mkRat 0 1)

/-- Python `min` of two rationals (the first argument on ties). -/
def qMin (a b : ℚ) : ℚ := if qLe a b then a else b

/-- Value of an ASCII digit. -/
def digitVal (c : Char) : ℕ := c.toNat - 48

/-- Python `float` of a plain decimal string (digits with an optional
fractional part), as an exact rational. -/
def parseDecimal (cs : List Char) : ℚ :=
  let ip := cs.takeWhile Char.isDigit
  let i : ℕ := ip.foldl (fun a c => a * 10 + digitVal c) 0
  match cs.dropWhile Char.isDigit with
  | '.' :: fs =>
    let f := fs.takeWhile Char.isDigit
    let fv : ℕ := f.foldl (fun a c => a * 10 + digitVal c) 0
    mkRat ((i * 10 ^ f.length + fv : ℕ) : ℤ) (10 ^ f.length)
  | _ => mkRat (i : ℤ) 1

/-- Round a rational to the nearest integer, ties to even (the rounding
mode of Python `round`). -/
def halfEvenInt (q : ℚ) : ℤ :=
  let n := qFloor q
  let fr := qSub q (mkRat n 1)
  if qLt fr (mkRat 1 2) then n
  else if qLt (mkRat 1 2) fr then n + 1
  else if n % 2 = 0 then n else n + 1

/-- Python `round(q, 2)` on the idealized decimal value. -/
def pyRound2 (q : ℚ) : ℚ := mkRat (halfEvenInt (qMul q (mkRat 100 1))) 100

/-! ## Price regular expressions

The four PRICE_PATTERNS of TextParser are compiled here into explicit
matchers with the backtracking preference order of the `re` engine.
`NUM` abbreviates the shared group `\d+(?:,\d{3})*(?:\.\d{1,2})?`. -/

/-- All ways `\d+` can match a prefix (greedy first): nonempty prefixes of
the maximal digit run, longest first. -/
def dPlusOptions (cs : List Char) : List (List Char × List Char) :=
  let d := cs.takeWhile Char.isDigit
  let rest := cs.dropWhile Char.isDigit
  (List.range d.length).map fun i =>
    let k := d.length - i
    (d.take k, d.drop k ++ rest)

/-- All ways `(?:,\d{3})*` can match a prefix, most repetitions first. -/
def commaGroups : List Char → List (List Char × List Char)
  | ',' :: a :: b :: c :: rest =>
    if a.isDigit && b.isDigit && c.isDigit then
      ((commaGroups rest).map fun p => (',' :: a :: b :: c :: p.1, p.2))
        ++ [([], ',' :: a :: b :: c :: rest)]
    else [([], ',' :: a :: b :: c :: rest)]
  | cs => [([], cs)]

/-- All ways `(?:\.\d{1,2})?` can match a prefix, greedy first. -/
def fracOptions : List Char → List (List Char × List Char)
  | '.' :: a :: b :: rest =>
    if a.isDigit && b.isDigit then
      [(['.', a, b], rest), (['.', a], b :: rest), ([], '.' :: a :: b :: rest)]
    else if a.isDigit then [(['.', a], b :: rest), ([], '.' :: a :: b :: rest)]
    else [([], '.' :: a :: b :: rest)]
  | ['.', a] => if a.isDigit then [(['.', a], []), ([], ['.', a])] else [([], ['.', a])]
  | cs => [([], cs)]

/-- All ways `NUM` can match a prefix, in backtracking preference order
(the last component varies fastest, as in the `re` engine). -/
def numCandidates (cs : List Char) : List (List Char × List Char) :=
  (dPlusOptions cs).flatMap fun p1 =>
    (commaGroups p1.2).flatMap fun p2 =>
      (fracOptions p2.2).map fun p3 => (p1.1 ++ p2.1 ++ p3.1, p3.2)

/-- First `some` produced by `f` along a list. -/
def firstSome {α β : Type} (f : α → Option β) : List α → Option β
  | [] => none
  | x :: xs => match f x with | some y => some y | none => firstSome f xs

/-- Pattern 1, `\$\s*(NUM)`, tried at one position: returns the group and
the number of characters consumed. After the maximal run of `\s` the
greedy `NUM` match is final because no constraint follows. -/
def p1At : List Char → Option (List Char × Nat)
  | '$' :: rest =>
    let ws := rest.takeWhile pyIsSpace
    match numCandidates (rest.dropWhile pyIsSpace) with
    | [] => none
    | p :: _ => some (p.1, 1 + ws.length + p.1.length)
  | _ => none

/-- Pattern 2, `(NUM)\s*\$`, tried at one position. -/
def p2At (cs : List Char) : Option (List Char × Nat) :=
  firstSome (fun p =>
    let ws := p.2.takeWhile pyIsSpace
    match p.2.dropWhile pyIsSpace with
    | '$' :: _ => some (p.1, p.1.length + ws.length + 1)
    | _ => none) (numCandidates cs)

/-- Does the input start with USD, EUR or GBP, case-insensitively (the
pattern is compiled with IGNORECASE)? -/
def currency3 : List Char → Bool
  | a :: b :: c :: _ =>
    [a.toLower, b.toLower, c.toLower] = ['u', 's', 'd']
      || [a.toLower, b.toLower, c.toLower] = ['e', 'u', 'r']
      || [a.toLower, b.toLower, c.toLower] = ['g', 'b', 'p']
  | _ => false

/-- Pattern 3, `(NUM)\s*(?:USD|EUR|GBP|usd|eur|gbp)` with IGNORECASE,
tried at one position. -/
def p3At (cs : List Char) : Option (List Char × Nat) :=
  firstSome (fun p =>
    let ws := p.2.takeWhile pyIsSpace
    if currency3 (p.2.dropWhile pyIsSpace) then
      some (p.1, p.1.length + ws.length + 3)
    else none) (numCandidates cs)

/-- Pattern 4, `(\d+\.\d{2})\s*$`, tried at one position (the anchor means
the rest of the line must be whitespace only). -/
def p4At (cs : List Char) : Option (List Char × Nat) :=
  let d := cs.takeWhile Char.isDigit
  if d.isEmpty then none
  else
    match cs.dropWhile Char.isDigit with
    | '.' :: a :: b :: rest =>
      if a.isDigit && b.isDigit && (rest.dropWhile pyIsSpace).isEmpty then
        some (d ++ ['.', a, b], cs.length)
      else none
    | _ => none

/-- Leftmost search of a single-position matcher, as `re.search`: returns
(group, start offset, end offset). -/
def searchAt (tryAt : List Char → Option (List Char × Nat)) : Nat → List Char →
    Option (List Char × Nat × Nat)
  | i, [] => (tryAt []).map fun p => (p.1, i, i + p.2)
  | i, c :: rest =>
    match tryAt (c :: rest) with
    | some p => some (p.1, i, i + p.2)
    | none => searchAt tryAt (i + 1) rest

/-! ## TextParser (api/app/services/text_parser.py) -/

/-- A matched price in text (class PriceMatch). The `end` index of the
source is called `ending` here. -/
structure PriceMatch where
  value : ℚ
  start : Nat
  ending : Nat
deriving DecidableEq, Repr

/-- One extracted menu item (api/app/models/menu_item.py, class MenuItem). -/
structure MenuItem where
  name : String
  price : ℚ
  description : Option String
  category : Option String
deriving DecidableEq, Repr

/-- MenuItem.normalized_name: `self.name.lower().strip()`. -/
def MenuItem.normalized_name (it : MenuItem) : String :=
  pyStrip (pyLower it.name)

/-- TextParser._find_price: try the four compiled patterns in order and
return the first match; the group has commas removed, is parsed as a
decimal and rounded to 2 places. -/
def find_price (s : String) : Option PriceMatch :=
  firstSome (fun tryAt =>
    (searchAt tryAt 0 s.data).map fun r =>
      { value := pyRound2 (parseDecimal (r.1.filter fun c => c ≠ ','))
        start := r.2.1
        ending := r.2.2 })
    [p1At, p2At, p3At, p4At]

/-- Is the character one of `.`, `-`, `_` (the filler runs stripped from
name edges)? -/
def isFillerChar (c : Char) : Bool := c = '.' || c = '-' || c = '_'

/-- TextParser._clean_name: strip trailing then leading runs of `.-_`,
collapse whitespace runs, drop `*` characters, strip. -/
def clean_name (s : String) : String :=
  let cs := (s.data.reverse.dropWhile isFillerChar).reverse
  let cs := cs.dropWhile isFillerChar
  let cs := collapseWsGo false cs
  let cs := cs.filter fun c => c ≠ '*'
  pyStrip ⟨cs⟩

/-- TextParser._is_valid_dish_name. -/
def is_valid_dish_name (s : String) : Bool :=
  if s.data.length < 3 then false
  else if !(s.data.filter fun c => c ≠ ' ').isEmpty
      && (s.data.filter fun c => c ≠ ' ').all Char.isDigit then false
  else if !(s.data.any Char.isAlpha) then false
  else (pySplitWs s).any fun w => w.data.length ≥ 2 && w.data.all Char.isAlpha

/-- TextParser._extract_item: find a price, take the text before the
match as the name, clean it, and apply the validity filters. -/
def extract_item (line : String) (category : Option String) : Option MenuItem :=
  match find_price line with
  | none => none
  | some pm =>
    let name := clean_name (pyStrip ⟨line.data.take pm.start⟩)
    if name.data.length < 2 then none
    else if !is_valid_dish_name name then none
    else some { name := name, price := pm.value, description := none, category := category }

/-- An ASCII apostrophe (written via its code point to keep the source
free of quote characters outside names). -/
def apos : Char := Char.ofNat 39

/-- TextParser.SECTION_HEADERS. -/
def SECTION_HEADERS : List String :=
  ["appetizers", "starters", "main courses", "mains", "entrees",
   "desserts", "beverages", "drinks", "sides", "salads", "soups",
   "breakfast", "lunch", "dinner", "specials",
   "today" ++ String.singleton apos ++ "s specials"]

/-- Is the character one of the punctuation characters `:-_=*#` removed
by the header test? -/
def isHeaderPunct (c : Char) : Bool :=
  c = ':' || c = '-' || c = '_' || c = '=' || c = '*' || c = '#'

/-- TextParser._is_section_header: the lowercased, punctuation-stripped
line is a reserved label, or the line is `isupper` with at most three
whitespace-separated tokens. -/
def is_section_header (line : String) : Bool :=
  let normalized := pyStrip (pyLower line)
  let normalized := pyStrip ⟨normalized.data.filter fun c => !isHeaderPunct c⟩
  if SECTION_HEADERS.contains normalized then true
  else if pyIsUpper line && (pySplitWs line).length ≤ 3 then true
  else false

/-- One iteration of the line loop of TextParser._parse_single: the state
is the items collected so far and the rolling current_category. -/
def parseStep (st : List MenuItem × Option String) (rawLine : String) :
    List MenuItem × Option String :=
  let line := pyStrip rawLine
  if line = "" then st
  else if is_section_header line then (st.1, some (pyTitle line))
  else
    match extract_item line st.2 with
    | some it => (st.1 ++ [it], st.2)
    | none => st

/-- TextParser._parse_single: fold the line loop over the newline-split
text, starting with no current category. -/
def parse_single (text : String) : List MenuItem :=
  ((pySplitLines text).foldl parseStep ([], none)).1

/-- One iteration of the loop of TextParser._deduplicate on the insertion
ordered association list that models the Python dict `seen`: a new key is
appended, an existing key keeps its position and keeps the higher-priced
record (strictly greater prices replace). -/
def dedupUpdate : List (String × MenuItem) → MenuItem → List (String × MenuItem)
  | [], it => [(it.normalized_name, it)]
  | (k, v) :: rest, it =>
    if k = it.normalized_name then
      if qLt v.price it.price then (k, it) :: rest else (k, v) :: rest
    else (k, v) :: dedupUpdate rest it

/-- TextParser._deduplicate: `list(seen.values())` in key insertion order. -/
def deduplicate (items : List MenuItem) : List MenuItem :=
  (items.foldl dedupUpdate []).map Prod.snd

/-- TextParser.parse: parse each text and deduplicate the concatenation. -/
def parse (texts : List String) : List MenuItem :=
  deduplicate (texts.flatMap parse_single)

/-! ## KeywordClassifier (mcp/app/services/keyword_classifier.py)

The two keyword dictionaries are compiled into alternation patterns with
`\b` word boundaries and IGNORECASE, and applied with `findall`. The
scanner below reproduces `re.findall` for such a pattern: positions are
tried left to right, at each position the alternatives in list order, and
scanning resumes after the end of a match. A word character is `\w`
(ASCII fragment: alphanumeric or underscore). -/

/-- Regex `\w` (ASCII fragment). -/
def isWordChar (c : Char) : Bool := c.isAlphanum || c = '_'

/-- KeywordClassifier.VEGETARIAN_KEYWORDS in source order (the source
lists "veggie" twice). -/
def VEGETARIAN_KEYWORDS : List String :=
  ["vegetarian", "veggie", "vegan", "plant-based", "meatless",
   "tofu", "tempeh", "seitan", "paneer", "halloumi",
   "beans", "lentils", "chickpea", "hummus", "falafel", "dal", "daal",
   "vegetable", "veggie", "mushroom", "eggplant", "aubergine",
   "zucchini", "courgette", "spinach", "broccoli", "cauliflower",
   "cheese", "mozzarella", "parmesan", "cheddar", "feta",
   "caprese", "margherita", "primavera", "marinara", "alfredo",
   "garden", "harvest"]

/-- KeywordClassifier.NON_VEGETARIAN_KEYWORDS in source order. -/
def NON_VEGETARIAN_KEYWORDS : List String :=
  ["chicken", "turkey", "duck", "poultry", "wing", "wings",
   "beef", "steak", "lamb", "pork", "veal", "venison", "bison",
   "burger", "meatball", "meatloaf", "meat",
   "bacon", "ham", "sausage", "salami", "pepperoni", "prosciutto",
   "chorizo", "pastrami", "corned beef",
   "fish", "salmon", "tuna", "cod", "halibut", "tilapia", "trout",
   "shrimp", "prawn", "lobster", "crab", "clam", "mussel", "oyster",
   "scallop", "calamari", "squid", "octopus", "seafood", "anchovy",
   "anchovies", "sardine",
   "ribs", "brisket", "roast", "carnitas", "pulled pork"]

/-- The trailing word boundary, as a boolean: the next character (if
any) is not a word character. -/
def boundaryAfterB (post : List Char) : Bool :=
  match post.head? with
  | none => true
  | some c => !isWordChar c

/-- Try one keyword at the current position: it must be a prefix of the
remaining text and the character after it (if any) must not be a word
character (the trailing `\b`; the leading `\b` is checked by the
scanner). Returns the rest of the text after the match. -/
def matchKwAt (kw : List Char) (cs : List Char) : Option (List Char) :=
  if kw.isPrefixOf cs then
    if boundaryAfterB (cs.drop kw.length) then some (cs.drop kw.length) else none
  else none

/-- Try the alternatives in list order at the current position. -/
def tryKws (kws : List (List Char)) (cs : List Char) : Option (List Char × List Char) :=
  firstSome (fun kw => (matchKwAt kw cs).map fun rest => (kw, rest)) kws

/-- The `findall` scan. `prevWord` records whether the character before
the current position is a word character (so a match may start only when
it is false — the leading `\b`); after a match the scan resumes after the
matched text, whose last character is a word character for every keyword
in the dictionaries. Fuel bounds the recursion (a match may consume
several characters). -/
def findallGo (kws : List (List Char)) : Nat → Bool → List Char → List (List Char)
  | 0, _, _ => []
  | fuel + 1, prevWord, cs =>
    match cs with
    | [] => []
    | c :: rest =>
      if prevWord then findallGo kws fuel (isWordChar c) rest
      else
        match tryKws kws cs with
        | some (kw, after) => kw :: findallGo kws fuel true after
        | none => findallGo kws fuel (isWordChar c) rest

/-- Python `pattern.findall(text)` for the alternation of `kws` with word
boundaries. -/
def pyFindall (kws : List String) (text : String) : List String :=
  (findallGo (kws.map String.data) text.data.length false text.data).map
    fun l => (⟨l⟩ : String)

/-- Python `list(set(l))` for a list of strings. Python leaves the order
unspecified; this model keeps first occurrences, and every theorem about
such lists is order-insensitive (`toFinset`, `Nodup`). -/
def pySetList (l : List String) : List String :=
  l.foldl (fun acc k => if k ∈ acc then acc else acc ++ [k]) []

/-- Result of the keyword classifier
(mcp/app/models/classification.py, KeywordClassificationResult). -/
structure KeywordClassificationResult where
  is_vegetarian : Option Bool
  confidence : ℚ
  matched_keywords : List String
deriving DecidableEq, Repr

/-- The query string of KeywordClassifier.classify: the dish name, the
description appended after a space when it is truthy (non-empty), then
lowercased. -/
def queryText (dish_name : String) (description : Option String) : String :=
  let text := match description with
    | some d => if d = "" then dish_name else dish_name ++ " " ++ d
    | none => dish_name
  pyLower text

/-- KeywordClassifier.classify. -/
def keyword_classify (dish_name : String) (description : Option String) :
    KeywordClassificationResult :=
  let text := queryText dish_name description
  let veg_matches := pySetList (pyFindall VEGETARIAN_KEYWORDS text)
  let non_veg_matches := pySetList (pyFindall NON_VEGETARIAN_KEYWORDS text)
  if !non_veg_matches.isEmpty && veg_matches.isEmpty then
    { is_vegetarian := some false, confidence := mkRat 9 10,
      matched_keywords := non_veg_matches }
  else if !veg_matches.isEmpty && non_veg_matches.isEmpty then
    { is_vegetarian := some true, confidence := mkRat 8 10,
      matched_keywords := veg_matches }
  else if !veg_matches.isEmpty && !non_veg_matches.isEmpty then
    { is_vegetarian := some false, confidence := mkRat 5 10,
      matched_keywords := non_veg_matches ++ veg_matches }
  else
    { is_vegetarian := none, confidence := mkRat 0 1, matched_keywords := [] }

/-! ## Classification coordinator
(mcp/app/tools/classify_and_calculate.py, mcp/app/services/calculator.py,
mcp/app/models/classification.py, tool_input.py, tool_output.py) -/

/-- Evidence from the RAG system (RAGEvidence). -/
structure RAGEvidence where
  dish_name : String
  is_vegetarian : Bool
  similarity_score : ℚ
  description : Option String
deriving DecidableEq, Repr

/-- Parsed LLM verdict (LLMClassificationResponse). -/
structure LLMClassificationResponse where
  is_vegetarian : Bool
  confidence : ℚ
  reasoning : String
deriving DecidableEq, Repr

/-- Combined per-dish verdict (ClassificationResult). -/
structure ClassificationResult where
  is_vegetarian : Bool
  confidence : ℚ
  reasoning : String
  method : String
deriving DecidableEq, Repr

/-- Input item of the tool (MenuItemInput). -/
structure MenuItemInput where
  name : String
  price : ℚ
  description : Option String
deriving DecidableEq, Repr

/-- Output item of the tool (VegetarianItemOutput). -/
structure VegetarianItemOutput where
  name : String
  price : ℚ
  confidence : ℚ
  reasoning : Option String
deriving DecidableEq, Repr

/-- Output item needing review (UncertainItemOutput). -/
structure UncertainItemOutput where
  name : String
  price : ℚ
  confidence : ℚ
  evidence : List String
deriving DecidableEq, Repr

/-- The two possible outcomes of ClassifyAndCalculateTool.execute
(ClassifyAndCalculateOutput | NeedsReviewOutput). -/
inductive ToolOutcome where
  | final (vegetarian_items : List VegetarianItemOutput) (total_sum : ℚ)
      (request_id : String)
  | needs_review (request_id : String)
      (confident_items : List VegetarianItemOutput)
      (uncertain_items : List UncertainItemOutput) (partial_sum : ℚ)
deriving DecidableEq, Repr

/-- Python `", ".join(l)`. -/
def joinComma : List String → String
  | [] => ""
  | [x] => x
  | x :: rest => x ++ ", " ++ joinComma rest

/-- The default verdict of _combine_classifications when nothing gave a
signal. -/
def default_classification : ClassificationResult :=
  { is_vegetarian := false, confidence := mkRat 3 10,
    reasoning := "Unable to determine with confidence, defaulting to non-vegetarian",
    method := "default" }

/-- The strong-disagreement test of _combine_classifications:
`keyword_result.confidence >= 0.8 and keyword_result.is_vegetarian is
not None and keyword_result.is_vegetarian != llm_result.is_vegetarian`. -/
def kwConflict (kw : KeywordClassificationResult) (llmVeg : Bool) : Bool :=
  qLe (mkRat 8 10) kw.confidence &&
    (match kw.is_vegetarian with
     | some kb => kb != llmVeg
     | none => false)

/-- ClassifyAndCalculateTool._combine_classifications. -/
def combine_classifications (llm_result : Option LLMClassificationResponse)
    (keyword_result : KeywordClassificationResult)
    (rag_evidence : List RAGEvidence) : ClassificationResult :=
  match llm_result with
  | some llm =>
    if kwConflict keyword_result llm.is_vegetarian then
      { is_vegetarian := llm.is_vegetarian
        confidence := qMin llm.confidence (mkRat 6 10)
        reasoning := llm.reasoning ++ " (Note: keyword analysis suggests otherwise)"
        method := "combined" }
    else
      let confidence :=
        match rag_evidence.head? with
        | some top =>
          if qLt (mkRat 7 10) top.similarity_score
              && (top.is_vegetarian == llm.is_vegetarian) then
            qMin (qAdd llm.confidence (mkRat 1 10)) (mkRat 1 1)
          else llm.confidence
        | none => llm.confidence
      { is_vegetarian := llm.is_vegetarian
        confidence := pyRound2 confidence
        reasoning := llm.reasoning
        method := "llm+rag" }
  | none =>
    match keyword_result.is_vegetarian with
    | some kb =>
      { is_vegetarian := kb, confidence := keyword_result.confidence
        reasoning := "Keyword match: " ++ joinComma keyword_result.matched_keywords
        method := "keyword" }
    | none =>
      match rag_evidence.head? with
      | some top =>
        if qLt (mkRat 8 10) top.similarity_score then
          { is_vegetarian := top.is_vegetarian
            confidence := qMul top.similarity_score (mkRat 8 10)
            reasoning := "Similar to known dish: " ++ top.dish_name
            method := "rag" }
        else default_classification
      | none => default_classification

/-- Calculator.calculate_total: 0.0 on the empty list, otherwise the sum
of the prices rounded to 2 decimal places. -/
def calculate_total (prices : List ℚ) : ℚ :=
  if prices.isEmpty then mkRat 0 1 else pyRound2 (qSum prices)

/-- One iteration of the partition loop of
ClassifyAndCalculateTool.execute over the classified items: the state is
(confident_veg, uncertain). -/
def partitionStep (threshold : ℚ)
    (st : List VegetarianItemOutput × List UncertainItemOutput)
    (p : MenuItemInput × ClassificationResult) :
    List VegetarianItemOutput × List UncertainItemOutput :=
  if p.2.is_vegetarian then
    if qLe threshold p.2.confidence then
      (st.1 ++ [{ name := p.1.name, price := p.1.price,
                  confidence := p.2.confidence, reasoning := some p.2.reasoning }], st.2)
    else
      (st.1, st.2 ++ [{ name := p.1.name, price := p.1.price,
                        confidence := p.2.confidence, evidence := [p.2.reasoning] }])
  else
    if qLt p.2.confidence threshold then
      (st.1, st.2 ++ [{ name := p.1.name, price := p.1.price,
                        confidence := p.2.confidence, evidence := [p.2.reasoning] }])
    else st

/-- ClassifyAndCalculateTool.execute, given the per-item classification
results (the classification of each item is the input list; the
threshold is the configurable settings.confidence_threshold). -/
def execute_batch (threshold : ℚ) (request_id : String)
    (classified : List (MenuItemInput × ClassificationResult)) : ToolOutcome :=
  let st := classified.foldl (partitionStep threshold) ([], [])
  let vegetarian_total := calculate_total (st.1.map (·.price))
  if !st.2.isEmpty then
    .needs_review request_id st.1 st.2 vegetarian_total
  else
    .final st.1 vegetarian_total request_id

/-- Claim-side: the confident vegetarian partition — items classified
vegetarian with confidence at or above the threshold, in input order. -/
def confidentSpec (threshold : ℚ)
    (classified : List (MenuItemInput × ClassificationResult)) :
    List VegetarianItemOutput :=
  (classified.filter fun p => p.2.is_vegetarian && qLe threshold p.2.confidence).map
    fun p => { name := p.1.name, price := p.1.price,
               confidence := p.2.confidence, reasoning := some p.2.reasoning }

/-- Claim-side: the uncertain partition — items whose confidence is below
the threshold (vegetarian or not), in input order. -/
def uncertainSpec (threshold : ℚ)
    (classified : List (MenuItemInput × ClassificationResult)) :
    List UncertainItemOutput :=
  (classified.filter fun p => qLt p.2.confidence threshold).map
    fun p => { name := p.1.name, price := p.1.price,
               confidence := p.2.confidence, evidence := [p.2.reasoning] }

/-! ## LLM response parsing (mcp/app/services/llm_classifier.py)

LLMClassifier._parse_response receives the model output string, strips
an optional markdown fence, runs `json.loads` and reads the three fields
with `dict.get` defaults. The embedding starts after `json.loads`: its
input is `Option PyJson` — `none` when decoding raised JSONDecodeError,
otherwise the decoded value. -/

/-- A decoded Python JSON value. Object keys are unique after
`json.loads` (later duplicates overwrite), so an association list with
first-match lookup models the dict. -/
inductive PyJson where
  | null
  | bool (b : Bool)
  | num (q : ℚ)
  | str (s : String)
  | arr (elems : List PyJson)
  | obj (fields : List (String × PyJson))

/-- Python truthiness, `bool(x)`, for decoded JSON values. -/
def pyTruthy : PyJson → Bool
  | .null => false
  | .bool b => b
  | .num q => q.num != 0
  | .str s => !s.isEmpty
  | .arr l => !l.isEmpty
  | .obj l => !l.isEmpty

/-- Outcome of Python `float(x)` on a decoded JSON value. -/
inductive FloatConv where
  | ok (q : ℚ)
  | valueError
  | typeError
deriving DecidableEq, Repr

/-- Python `float(s)` on the plain-decimal fragment (optional sign,
digits, optional fractional part): the strings the model realistically
produces. Exponents, inf/nan and surrounding whitespace are outside the
model and map to `none` (ValueError). -/
def parseFloatStr (s : String) : Option ℚ :=
  let cs := s.data
  let withSign : Bool × List Char :=
    match cs with
    | '-' :: rest => (true, rest)
    | '+' :: rest => (false, rest)
    | _ => (false, cs)
  let body := withSign.2
  let d := body.takeWhile Char.isDigit
  let rest := body.dropWhile Char.isDigit
  let ok : Option ℚ :=
    match rest with
    | [] => if d.isEmpty then none else some (parseDecimal body)
    | '.' :: fs =>
      if fs.all Char.isDigit && !(d.isEmpty && fs.isEmpty) then
        some (parseDecimal body)
      else none
    | _ => none
  match ok with
  | none => none
  | some q => some (if withSign.1 then qSub (mkRat 0 1) q else q)

/-- Python `float(x)`: numbers pass through, booleans become 0/1,
strings are parsed (ValueError on failure), and None/lists/dicts raise
TypeError. -/
def pyFloatOf : PyJson → FloatConv
  | .num q => .ok q
  | .bool b => .ok (if b then mkRat 1 1 else mkRat 0 1)
  | .str s =>
    match parseFloatStr s with
    | some q => .ok q
    | none => .valueError
  | .null => .typeError
  | .arr _ => .typeError
  | .obj _ => .typeError

/-- Python `str(x)` for decoded JSON values. The reasoning field only
passes through this; non-string renderings are abbreviated (no claim
depends on them). -/
def pyStrOf : PyJson → String
  | .str s => s
  | .null => "None"
  | .bool b => if b then "True" else "False"
  | .num _ => "<number>"
  | .arr _ => "<list>"
  | .obj _ => "<dict>"

/-- Outcome of LLMClassifier._parse_response itself: a parsed record, an
exception caught by its own handler (JSONDecodeError, KeyError,
ValueError — including the pydantic ValidationError, a ValueError), or
an exception that escapes it (AttributeError from `.get` on a non-dict,
TypeError from `float`). -/
inductive ParseOutcome where
  | ok (r : LLMClassificationResponse)
  | caught
  | raised
deriving DecidableEq, Repr

/-- LLMClassifier._parse_response after `json.loads`: read the three
fields with defaults `False`, `0.5`, `"No reasoning provided"`, convert,
and validate `0 ≤ confidence ≤ 1` (the pydantic field constraint). -/
def parse_response (data : Option PyJson) : ParseOutcome :=
  match data with
  | none => .caught
  | some (.obj fields) =>
    let veg := pyTruthy ((List.lookup "is_vegetarian" fields).getD (.bool false))
    match pyFloatOf ((List.lookup "confidence" fields).getD (.num (mkRat 5 10))) with
    | .typeError => .raised
    | .valueError => .caught
    | .ok conf =>
      let reasoning :=
        pyStrOf ((List.lookup "reasoning" fields).getD (.str "No reasoning provided"))
      if qLe (mkRat 0 1) conf && qLe conf (mkRat 1 1) then
        .ok { is_vegetarian := veg, confidence := conf, reasoning := reasoning }
      else .caught
  | some _ => .raised

/-- The verdict as seen by the caller: LLMClassifier.classify wraps the
whole call in a blanket `except Exception: return None`, so both caught
and escaped exceptions surface as null. -/
def parse_response_result (data : Option PyJson) : Option LLMClassificationResponse :=
  match parse_response data with
  | .ok r => some r
  | .caught => none
  | .raised => none

/-! ## HITL review reconciliation
(api/app/routers/review.py, api/app/services/review_store.py,
api/app/models/menu_item.py, api/app/models/requests.py) -/

/-- VegetarianItem of api/app/models/menu_item.py: the response item
carries only a name and a price. -/
structure VegetarianItem where
  name : String
  price : ℚ
deriving DecidableEq, Repr

/-- The VegetarianItem constructor as called in review.py and menu.py:
the call sites pass confidence and reasoning, but the pydantic model
declares neither field and its default extra-field policy silently
ignores them, so both arguments are discarded. -/
def mkVegetarianItem (name : String) (price : ℚ) (confidence : ℚ)
    (reasoning : String) : VegetarianItem :=
  let _ := confidence
  let _ := reasoning
  { name := name, price := price }

/-- An item of the stored MCP result dict, with the fields review.py
reads (`name`, `price` directly; `confidence`, `reasoning` through
`dict.get` with defaults, hence optional). -/
structure StoredItem where
  name : String
  price : ℚ
  confidence : Option ℚ
  reasoning : Option String
deriving DecidableEq, Repr

/-- A stored pending review: the confident and uncertain item lists of
the stored needs_review MCP result. -/
structure PendingReview where
  confident_items : List StoredItem
  uncertain_items : List StoredItem
deriving DecidableEq, Repr

/-- ProcessMenuResponse of api/app/models/responses.py. -/
structure ProcessMenuResponse where
  vegetarian_items : List VegetarianItem
  total_sum : ℚ
deriving DecidableEq, Repr

/-- ReviewCorrectionItem of api/app/models/requests.py. -/
structure ReviewCorrectionItem where
  name : String
  is_vegetarian : Bool
deriving DecidableEq, Repr

/-- ReviewRequest of api/app/models/requests.py. -/
structure ReviewRequest where
  request_id : String
  corrections : List ReviewCorrectionItem
deriving DecidableEq, Repr

/-- The lookup key used on both sides of the correction matching:
`name.lower().strip()`. -/
def normKey (s : String) : String := pyStrip (pyLower s)

/-- Python dict insertion for the corrections comprehension: an existing
key keeps its position and takes the new value, a new key is appended. -/
def dictInsert (m : List (String × Bool)) (k : String) (v : Bool) :
    List (String × Bool) :=
  match m with
  | [] => [(k, v)]
  | (k2, v2) :: rest =>
    if k2 = k then (k2, v) :: rest else (k2, v2) :: dictInsert rest k v

/-- The corrections map of submit_review:
`{c.name.lower().strip(): c.is_vegetarian for c in body.corrections}`
(later duplicates overwrite earlier ones). -/
def corrections_map (cs : List ReviewCorrectionItem) : List (String × Bool) :=
  cs.foldl (fun m c => dictInsert m (normKey c.name) c.is_vegetarian) []

/-- The reconciliation body of submit_review: seed with all confident
items, then append each uncertain item whose correction is present and
true; total_sum is the rounded price sum of the result. -/
def submit_review_core (pending : PendingReview)
    (corrections : List ReviewCorrectionItem) : ProcessMenuResponse :=
  let m := corrections_map corrections
  let veg :=
    pending.confident_items.map (fun it =>
      mkVegetarianItem it.name it.price (it.confidence.getD (mkRat 1 1))
        (it.reasoning.getD "Previously classified with high confidence"))
    ++ pending.uncertain_items.flatMap (fun it =>
      match List.lookup (normKey it.name) m with
      | some true =>
        [mkVegetarianItem it.name it.price (mkRat 1 1)
          "Confirmed vegetarian by human review"]
      | _ => [])
  { vegetarian_items := veg
    total_sum := pyRound2 (qSum (veg.map VegetarianItem.price)) }

/-- ReviewStore: the in-memory dict from request_id to the stored MCP
result, as an insertion-ordered association list with unique keys. -/
def storeGet (store : List (String × PendingReview)) (rid : String) :
    Option PendingReview :=
  List.lookup rid store

/-- ReviewStore.delete. -/
def storeDelete (store : List (String × PendingReview)) (rid : String) :
    List (String × PendingReview) :=
  store.filter fun p => p.1 ≠ rid

/-- The submit_review endpoint as a state transition on the review
store: an unknown request_id yields `none` (the 404 ReviewNotFound
response) and leaves the store unchanged; otherwise the stored
PendingReview is reconciled with the corrections and deleted. -/
def submit_review (store : List (String × PendingReview)) (req : ReviewRequest) :
    List (String × PendingReview) × Option ProcessMenuResponse :=
  match storeGet store req.request_id with
  | none => (store, none)
  | some pending =>
    (storeDelete store req.request_id,
     some (submit_review_core pending req.corrections))

/-- Claim-side: the uncertain items surviving review — those whose
normalized name has a correction that is present and true — as response
items, in stored order. -/
def confirmedUncertain (pending : PendingReview)
    (corrections : List ReviewCorrectionItem) : List VegetarianItem :=
  (pending.uncertain_items.filter fun it =>
    List.lookup (normKey it.name) (corrections_map corrections) = some true).map
    fun it => { name := it.name, price := it.price }

/-- Concrete pending review for the C5 counterexample: one uncertain
item whose name contains a double space. -/
def c5pending : PendingReview :=
  { confident_items := []
    uncertain_items := [{ name := "Greek  Salad", price := mkRat 5 1,
                          confidence := some (mkRat 55 100), reasoning := none }] }

/-- Concrete corrections for the C5 counterexample: the same name with a
single space, confirmed vegetarian. -/
def c5corrections : List ReviewCorrectionItem :=
  [{ name := "Greek Salad", is_vegetarian := true }]

/-- Concrete pending review for the C5 witness. -/
def c5wpending : PendingReview :=
  { confident_items := []
    uncertain_items := [{ name := "Tofu Bowl", price := mkRat 9 1,
                          confidence := some (mkRat 6 10), reasoning := none }] }

/-- Concrete corrections for the C5 witness: an upper-case, padded
spelling of the same dish. -/
def c5wcorrections : List ReviewCorrectionItem :=
  [{ name := " TOFU BOWL ", is_vegetarian := true }]

/-- Concrete pending review for the C6 and C10 witnesses. -/
def c6pending : PendingReview :=
  { confident_items := [{ name := "Greek Salad", price := mkRat 999 100,
                          confidence := some (mkRat 95 100),
                          reasoning := some "High confidence" }]
    uncertain_items := [{ name := "Tofu Bowl", price := mkRat 9 1,
                          confidence := some (mkRat 6 10), reasoning := none }] }

/-- Concrete review store for the C6 witness. -/
def c6store : List (String × PendingReview) := [("req-9", c6pending)]

/-- Concrete review request for the C6 witness. -/
def c6req : ReviewRequest :=
  { request_id := "req-9"
    corrections := [{ name := "Tofu Bowl", is_vegetarian := true }] }

/-- Concrete correction for the C10 witness: it names a confident item
(with is_vegetarian = false) and matches no uncertain item. -/
def c10corr : ReviewCorrectionItem :=
  { name := "Greek Salad", is_vegetarian := false }

/-! ## Specification-side descriptions of the parser loop and of
deduplication (used to state the claims) -/

/-- Claim-side recursion describing the line loop: blank lines are
skipped, a header line updates the rolling category to the title-cased
stripped line, any other line contributes `extract_item` under the
current category. -/
def parseLinesSpec : List String → Option String → List MenuItem
  | [], _ => []
  | l :: ls, cat =>
    let s := pyStrip l
    if s = "" then parseLinesSpec ls cat
    else if is_section_header s then parseLinesSpec ls (some (pyTitle s))
    else (extract_item s cat).toList ++ parseLinesSpec ls cat

/-- Keys of a list in first-occurrence order. -/
def firstKeys (l : List String) : List String :=
  l.foldl (fun acc k => if k ∈ acc then acc else acc ++ [k]) []

/-- Keep the higher-priced of two records; on ties (and below), the
first. -/
def pickMax (a b : MenuItem) : MenuItem :=
  if qLt a.price b.price then b else a

/-- The surviving record of the group of candidates with normalized name
`k` — the first record attaining the greatest price — or `none` when the
group is empty. -/
def bestOfGroup (k : String) (items : List MenuItem) : Option MenuItem :=
  match items.filter (fun it => it.normalized_name = k) with
  | [] => none
  | h :: t => some (t.foldl pickMax h)

/-- Lookup in the association list modelling the dict `seen`. -/
def aLookup : List (String × MenuItem) → String → Option MenuItem
  | [], _ => none
  | (k, v) :: rest, q => if k = q then some v else aLookup rest q

/-- Claim-side: the leading word boundary holds before a candidate match
position; `prev` says whether the character immediately before the
scanned region is a word character. -/
def boundaryBefore (prev : Bool) (pre : List Char) : Prop :=
  match pre.getLast? with
  | some c => isWordChar c = false
  | none => prev = false

/-- Claim-side: the trailing word boundary after a match. -/
def boundaryAfter (post : List Char) : Prop :=
  match post.head? with
  | some c => isWordChar c = false
  | none => True

/-- Claim-side: some alternative of `kws` occurs in `t` at a position
with word boundaries on both sides. -/
def occursWB (prev : Bool) (kws : List (List Char)) (t : List Char) : Prop :=
  ∃ kw ∈ kws, ∃ pre post,
    t = pre ++ kw ++ post ∧ boundaryBefore prev pre ∧ boundaryAfter post

/-- Claim-side: some keyword of `kws` occurs in the string `t` at word
boundaries. -/
def kwOccurs (kws : List String) (t : String) : Prop :=
  occursWB false (kws.map String.data) t.data

/-- Concrete input item used by the C2 witness. -/
def c2item : MenuItemInput :=
  { name := "Mushroom Risotto", price := mkRat 14 1, description := none }

/-- Concrete classification used by the C2 witness: vegetarian at 0.55,
below the default threshold 0.7. -/
def c2cls : ClassificationResult :=
  { is_vegetarian := true, confidence := mkRat 55 100,
    reasoning := "r", method := "llm+rag" }

/-! ## Bridge lemmas for the rational primitives -/

theorem qAdd_eq (a b : ℚ) : qAdd a b = a + b := (Rat.add_def' a b).symm

theorem qSub_eq (a b : ℚ) : qSub a b = a - b := (Rat.sub_def' a b).symm

theorem qMul_eq (a b : ℚ) : qMul a b = a * b := by
  rw [qMul, Rat.mul_def, Rat.normalize_eq_mkRat]

theorem qLt_iff (a b : ℚ) : qLt a b = true ↔ a < b := Iff.rfl

theorem qLe_iff (a b : ℚ) : qLe a b = true ↔ a ≤ b := by
  show (!(Rat.blt b a)) = true ↔ a ≤ b
  rw [Bool.not_eq_true']
  exact Iff.rfl

theorem qFloor_eq (q : ℚ) : qFloor q = ⌊q⌋ := by rw [Rat.floor_def]; rfl

theorem qMin_eq (a b : ℚ) : qMin a b = min a b := by
  rw [qMin, min_def]
  by_cases h : a ≤ b
  · rw [if_pos ((qLe_iff a b).mpr h), if_pos h]
  · rw [if_neg (fun hh => h ((qLe_iff a b).mp hh)), if_neg h]

theorem foldl_qAdd_eq (l : List ℚ) : ∀ z : ℚ, l.foldl qAdd z = z + l.sum := by
  induction l with
  | nil => intro z; simp
  | cons x xs ih =>
    intro z
    rw [List.foldl_cons, ih, qAdd_eq, List.sum_cons, add_assoc]

theorem qSum_eq (l : List ℚ) : qSum l = l.sum := by
  rw [qSum, foldl_qAdd_eq]
  simp

/-! ## Lemmas about the parser loop -/

theorem foldl_parseStep_acc (ls : List String) :
    ∀ (acc : List MenuItem) (cat : Option String),
      (ls.foldl parseStep (acc, cat)).1 = acc ++ parseLinesSpec ls cat := by
  induction ls with
  | nil => intro acc cat; simp [parseLinesSpec]
  | cons l ls ih =>
    intro acc cat
    simp only [List.foldl_cons, parseLinesSpec, parseStep]
    by_cases h0 : pyStrip l = ""
    · simp [h0, ih]
    · by_cases h1 : is_section_header (pyStrip l)
      · simp [h0, h1, ih]
      · simp only [h0, h1, if_false, if_true, Bool.false_eq_true]
        cases hx : extract_item (pyStrip l) cat with
        | none => simp [h0, h1, hx, ih]
        | some it => simp [h0, h1, hx, ih]

theorem parse_single_eq_spec (text : String) :
    parse_single text = parseLinesSpec (pySplitLines text) none := by
  unfold parse_single
  simpa using foldl_parseStep_acc (pySplitLines text) [] none

/-! ## Lemmas about deduplication -/

theorem aLookup_dedupUpdate (it : MenuItem) (q : String) :
    ∀ acc : List (String × MenuItem),
      aLookup (dedupUpdate acc it) q =
        if q = it.normalized_name then
          (match aLookup acc q with
           | none => some it
           | some v => some (pickMax v it))
        else aLookup acc q := by
  intro acc
  induction acc with
  | nil =>
    by_cases h : q = it.normalized_name <;>
      simp [dedupUpdate, aLookup, h, eq_comm]
  | cons p rest ih =>
    obtain ⟨k, v⟩ := p
    by_cases hk : k = it.normalized_name
    · by_cases hq : q = it.normalized_name
      · subst hk; subst hq
        cases hp : qLt v.price it.price <;>
          simp [dedupUpdate, aLookup, hp, pickMax]
      · have hkq : k ≠ q := fun h => hq (h ▸ hk)
        have hq2 : ¬ it.normalized_name = q := fun h => hq h.symm
        cases hp : qLt v.price it.price <;>
          simp [dedupUpdate, aLookup, hk, hkq, hq, hq2, hp]
    · by_cases hkq : k = q
      · subst hkq
        simp [dedupUpdate, aLookup, hk, Ne.symm hk]
      · simp [dedupUpdate, aLookup, hk, hkq, ih]

theorem keys_dedupUpdate (it : MenuItem) :
    ∀ acc : List (String × MenuItem),
      (dedupUpdate acc it).map Prod.fst =
        if it.normalized_name ∈ acc.map Prod.fst then acc.map Prod.fst
        else acc.map Prod.fst ++ [it.normalized_name] := by
  intro acc
  induction acc with
  | nil => simp [dedupUpdate]
  | cons p rest ih =>
    obtain ⟨k, v⟩ := p
    by_cases hk : k = it.normalized_name
    · subst hk
      cases hp : qLt v.price it.price <;> simp [dedupUpdate, hp]
    · have : it.normalized_name = k ↔ False := by simp [Ne.symm hk]
      simp only [dedupUpdate, hk, if_false, List.map_cons, List.mem_cons, this, false_or]
      by_cases hmem : it.normalized_name ∈ rest.map Prod.fst <;> simp [hmem, ih]

theorem aLookup_foldl_dedupUpdate (items : List MenuItem) (q : String) :
    aLookup (items.foldl dedupUpdate []) q = bestOfGroup q items := by
  induction items using List.reverseRecOn with
  | nil => simp [aLookup, bestOfGroup]
  | append_singleton l x ih =>
    rw [List.foldl_append, List.foldl_cons, List.foldl_nil, aLookup_dedupUpdate, ih]
    by_cases hq : q = x.normalized_name
    · subst hq
      simp only [if_true, bestOfGroup, List.filter_append, List.filter_cons,
        decide_eq_true_eq, if_pos rfl]
      cases hf : List.filter (fun it => it.normalized_name = x.normalized_name) l with
      | nil => simp [hf, bestOfGroup, List.filter_nil]
      | cons h t =>
        simp [hf, bestOfGroup, List.foldl_append]
    · have hx : ¬ x.normalized_name = q := fun h => hq h.symm
      simp only [if_neg hq, bestOfGroup, List.filter_append, List.filter_cons,
        decide_eq_true_eq, if_neg hx, List.filter_nil, List.append_nil]

theorem mem_foldl_firstKeys (k : String) (l : List String) :
    ∀ acc : List String,
      (k ∈ l.foldl (fun acc k => if k ∈ acc then acc else acc ++ [k]) acc ↔ k ∈ acc ∨ k ∈ l) := by
  induction l with
  | nil => intro acc; simp
  | cons x xs ih =>
    intro acc
    simp only [List.foldl_cons, ih, List.mem_cons]
    by_cases hx : x ∈ acc
    · simp only [if_pos hx]
      constructor
      · rintro (h | h) <;> tauto
      · rintro (h | h | h)
        · tauto
        · subst h; tauto
        · tauto
    · simp only [if_neg hx, List.mem_append, List.mem_singleton]
      tauto

theorem mem_firstKeys (k : String) (l : List String) : k ∈ firstKeys l ↔ k ∈ l := by
  unfold firstKeys
  simpa using mem_foldl_firstKeys k l []

theorem keys_foldl_dedupUpdate (items : List MenuItem) :
    (items.foldl dedupUpdate []).map Prod.fst =
      firstKeys (items.map MenuItem.normalized_name) := by
  induction items using List.reverseRecOn with
  | nil => simp [firstKeys]
  | append_singleton l x ih =>
    rw [List.foldl_append, List.foldl_cons, List.foldl_nil, keys_dedupUpdate, ih]
    have hfk : firstKeys ((l ++ [x]).map MenuItem.normalized_name) =
        if x.normalized_name ∈ firstKeys (l.map MenuItem.normalized_name) then
          firstKeys (l.map MenuItem.normalized_name)
        else firstKeys (l.map MenuItem.normalized_name) ++ [x.normalized_name] := by
      unfold firstKeys
      rw [List.map_append, List.foldl_append]
      simp [firstKeys]
    rw [hfk]

theorem firstKeys_nodup (l : List String) : (firstKeys l).Nodup := by
  suffices h : ∀ acc : List String, acc.Nodup →
      (l.foldl (fun acc k => if k ∈ acc then acc else acc ++ [k]) acc).Nodup by
    exact h [] List.nodup_nil
  induction l with
  | nil => intro acc hacc; simpa using hacc
  | cons x xs ih =>
    intro acc hacc
    simp only [List.foldl_cons]
    by_cases hx : x ∈ acc
    · simpa [hx] using ih acc hacc
    · refine ih _ ?_
      simpa [List.nodup_append, hx] using hacc

theorem filterMap_congr_mem {α β : Type} (f g : α → Option β) :
    ∀ l : List α, (∀ x ∈ l, f x = g x) → l.filterMap f = l.filterMap g := by
  intro l h
  exact List.filterMap_congr h

theorem assoc_reconstruct :
    ∀ A : List (String × MenuItem), (A.map Prod.fst).Nodup →
      A.map Prod.snd = (A.map Prod.fst).filterMap (fun k => aLookup A k) := by
  intro A
  induction A with
  | nil => simp
  | cons p rest ih =>
    obtain ⟨k, v⟩ := p
    intro hnd
    have hk : k ∉ rest.map Prod.fst := by
      simp only [List.map_cons, List.nodup_cons] at hnd
      exact hnd.1
    have hrest : (rest.map Prod.fst).Nodup := by
      simp only [List.map_cons, List.nodup_cons] at hnd
      exact hnd.2
    have hfk : aLookup ((k, v) :: rest) k = some v := by simp [aLookup]
    have hcongr : (rest.map Prod.fst).filterMap (fun q => aLookup ((k, v) :: rest) q) =
        (rest.map Prod.fst).filterMap (fun q => aLookup rest q) := by
      refine filterMap_congr_mem _ _ _ ?_
      intro q hq
      have : k ≠ q := fun h => hk (h ▸ hq)
      simp [aLookup, this]
    simp only [List.map_cons, List.filterMap_cons, hfk]
    rw [hcongr, ← ih hrest]

theorem goodKeys_dedupUpdate (x : MenuItem) :
    ∀ acc : List (String × MenuItem), (∀ p ∈ acc, (p.2).normalized_name = p.1) →
      ∀ q ∈ dedupUpdate acc x, (q.2).normalized_name = q.1 := by
  intro acc
  induction acc with
  | nil =>
    intro _ q hq
    simp only [dedupUpdate, List.mem_singleton] at hq
    subst hq; rfl
  | cons p rest ih =>
    obtain ⟨k, v⟩ := p
    intro hacc q hq
    have hkv : v.normalized_name = k := hacc (k, v) (by simp)
    have hrest : ∀ p ∈ rest, (p.2).normalized_name = p.1 := fun p hp =>
      hacc p (List.mem_cons_of_mem _ hp)
    by_cases hk : k = x.normalized_name
    · subst hk
      cases hp : qLt v.price x.price with
      | true =>
        simp only [dedupUpdate, if_pos rfl, hp, if_pos rfl] at hq
        rcases List.mem_cons.mp hq with h | h
        · subst h; rfl
        · exact hrest q h
      | false =>
        simp only [dedupUpdate, if_pos rfl, hp] at hq
        rcases List.mem_cons.mp hq with h | h
        · subst h; exact hkv
        · exact hrest q h
    · simp only [dedupUpdate, if_neg hk] at hq
      rcases List.mem_cons.mp hq with h | h
      · subst h; exact hkv
      · exact ih hrest q h

theorem goodKeys_foldl (items : List MenuItem) :
    ∀ p ∈ items.foldl dedupUpdate [], (p.2).normalized_name = p.1 := by
  suffices h : ∀ acc : List (String × MenuItem),
      (∀ p ∈ acc, (p.2).normalized_name = p.1) →
      ∀ p ∈ items.foldl dedupUpdate acc, (p.2).normalized_name = p.1 by
    exact h [] (by simp)
  induction items with
  | nil => intro acc hacc; simpa using hacc
  | cons x xs ih =>
    intro acc hacc
    simp only [List.foldl_cons]
    exact ih _ (goodKeys_dedupUpdate x acc hacc)

theorem snd_map_normalized (A : List (String × MenuItem))
    (h : ∀ p ∈ A, (p.2).normalized_name = p.1) :
    (A.map Prod.snd).map MenuItem.normalized_name = A.map Prod.fst := by
  induction A with
  | nil => simp
  | cons p rest ih =>
    simp only [List.map_cons]
    rw [h p (by simp), ih (fun q hq => h q (List.mem_cons_of_mem _ hq))]

theorem deduplicate_eq_spec (items : List MenuItem) :
    deduplicate items =
      (firstKeys (items.map MenuItem.normalized_name)).filterMap
        (fun k => bestOfGroup k items) := by
  unfold deduplicate
  have hnd : ((items.foldl dedupUpdate []).map Prod.fst).Nodup := by
    rw [keys_foldl_dedupUpdate]; exact firstKeys_nodup _
  rw [assoc_reconstruct _ hnd, keys_foldl_dedupUpdate]
  exact filterMap_congr_mem _ _ _ (fun k _ => aLookup_foldl_dedupUpdate items k)

theorem deduplicate_names_nodup (items : List MenuItem) :
    ((deduplicate items).map MenuItem.normalized_name).Nodup := by
  unfold deduplicate
  rw [snd_map_normalized _ (goodKeys_foldl items), keys_foldl_dedupUpdate]
  exact firstKeys_nodup _

/-! ## Lemmas about the keyword scanner -/

theorem firstSome_eq_none {α β : Type} (f : α → Option β) :
    ∀ l : List α, (firstSome f l = none ↔ ∀ x ∈ l, f x = none) := by
  intro l
  induction l with
  | nil => simp [firstSome]
  | cons x xs ih =>
    cases hx : f x with
    | some y => simp [firstSome, hx]
    | none => simp [firstSome, hx, ih]

theorem firstSome_eq_some {α β : Type} (f : α → Option β) (y : β) :
    ∀ l : List α, firstSome f l = some y → ∃ x ∈ l, f x = some y := by
  intro l
  induction l with
  | nil => intro h; simp [firstSome] at h
  | cons x xs ih =>
    intro h
    cases hx : f x with
    | some z =>
      simp only [firstSome, hx] at h
      exact ⟨x, by simp, by rw [hx, h]⟩
    | none =>
      simp only [firstSome, hx] at h
      obtain ⟨w, hw, hfw⟩ := ih h
      exact ⟨w, by simp [hw], hfw⟩

theorem boundaryAfterB_iff (post : List Char) :
    boundaryAfterB post = true ↔ boundaryAfter post := by
  cases hh : post.head? with
  | none => simp [boundaryAfterB, boundaryAfter, hh]
  | some c => simp [boundaryAfterB, boundaryAfter, hh]

theorem matchKwAt_some (kw cs rest : List Char) :
    matchKwAt kw cs = some rest → cs = kw ++ rest ∧ boundaryAfter rest := by
  intro h
  rw [matchKwAt] at h
  by_cases hpre : kw.isPrefixOf cs
  · rw [if_pos hpre] at h
    have heq : kw ++ cs.drop kw.length = cs :=
      List.prefix_iff_eq_append.mp (List.isPrefixOf_iff_prefix.mp hpre)
    by_cases hb : boundaryAfterB (cs.drop kw.length) = true
    · rw [if_pos hb] at h
      obtain rfl : cs.drop kw.length = rest := Option.some.inj h
      exact ⟨heq.symm, (boundaryAfterB_iff _).mp hb⟩
    · rw [if_neg hb] at h; cases h
  · rw [if_neg hpre] at h; cases h

theorem matchKwAt_none_iff (kw cs : List Char) :
    matchKwAt kw cs = none ↔ ¬ ∃ post, cs = kw ++ post ∧ boundaryAfter post := by
  constructor
  · intro h ⟨post, hpost, hafter⟩
    have hpre : kw.isPrefixOf cs := by
      rw [List.isPrefixOf_iff_prefix]
      exact ⟨post, hpost.symm⟩
    have hdrop : cs.drop kw.length = post := by
      have := congrArg (List.drop kw.length) hpost
      simpa using this
    rw [matchKwAt, if_pos hpre, hdrop,
      if_pos ((boundaryAfterB_iff post).mpr hafter)] at h
    cases h
  · intro h
    cases hm : matchKwAt kw cs with
    | none => rfl
    | some rest =>
      obtain ⟨heq, hafter⟩ := matchKwAt_some kw cs rest hm
      exact absurd ⟨rest, heq, hafter⟩ h

theorem boundaryBefore_cons (b : Bool) (c : Char) (pre : List Char) :
    boundaryBefore b (c :: pre) ↔ boundaryBefore (isWordChar c) pre := by
  cases pre with
  | nil => simp [boundaryBefore]
  | cons x xs =>
    cases hl : (x :: xs).getLast? with
    | none => exact absurd hl (by simp)
    | some y => simp [boundaryBefore, List.getLast?_cons_cons, hl]

theorem occursWB_shift (kws : List (List Char)) (c : Char) (rest : List Char) (prev : Bool)
    (h0 : prev = true ∨ ∀ kw ∈ kws, matchKwAt kw (c :: rest) = none) :
    occursWB prev kws (c :: rest) ↔ occursWB (isWordChar c) kws rest := by
  constructor
  · rintro ⟨kw, hm, pre, post, heq, hb, ha⟩
    cases pre with
    | nil =>
      rw [boundaryBefore] at hb
      simp only [List.getLast?_nil] at hb
      rcases h0 with h0 | h0
      · rw [h0] at hb; cases hb
      · have := (matchKwAt_none_iff kw (c :: rest)).mp (h0 kw hm)
        exact absurd ⟨post, by simpa using heq, ha⟩ this
    | cons c2 pre2 =>
      have hc : c2 = c ∧ rest = pre2 ++ kw ++ post := by
        have : c :: rest = c2 :: (pre2 ++ kw ++ post) := by simpa using heq
        exact ⟨(List.cons.injEq .. ▸ this).1.symm, (List.cons.injEq .. ▸ this).2⟩
      refine ⟨kw, hm, pre2, post, hc.2, ?_, ha⟩
      rw [← hc.1]
      exact (boundaryBefore_cons prev c2 pre2).mp hb
  · rintro ⟨kw, hm, pre, post, heq, hb, ha⟩
    refine ⟨kw, hm, c :: pre, post, by simp [heq], ?_, ha⟩
    exact (boundaryBefore_cons prev c pre).mpr hb

theorem occursWB_nil (kws : List (List Char)) (hkws : ∀ kw ∈ kws, kw ≠ [])
    (prev : Bool) : ¬ occursWB prev kws [] := by
  rintro ⟨kw, hm, pre, post, heq, _, _⟩
  have : kw = [] := by
    rcases List.append_eq_nil.mp heq.symm with ⟨h1, h2⟩
    exact (List.append_eq_nil.mp h1).2
  exact hkws kw hm this

theorem findallGo_eq_nil_iff (kws : List (List Char)) (hkws : ∀ kw ∈ kws, kw ≠ []) :
    ∀ (fuel : Nat), ∀ (cs : List Char), cs.length ≤ fuel → ∀ (prev : Bool),
      (findallGo kws fuel prev cs = [] ↔ ¬ occursWB prev kws cs) := by
  intro fuel
  induction fuel with
  | zero =>
    intro cs hlen prev
    have : cs = [] := List.length_eq_zero.mp (Nat.le_zero.mp hlen)
    subst this
    simp only [findallGo]
    exact iff_of_true trivial (occursWB_nil kws hkws prev)
  | succ fuel ih =>
    intro cs hlen prev
    cases cs with
    | nil =>
      simp only [findallGo]
      exact iff_of_true trivial (occursWB_nil kws hkws prev)
    | cons c rest =>
      have hlen2 : rest.length ≤ fuel := Nat.le_of_succ_le_succ (by simpa using hlen)
      cases prev with
      | true =>
        show findallGo kws fuel (isWordChar c) rest = [] ↔ _
        rw [occursWB_shift kws c rest true (Or.inl rfl)]
        exact ih rest hlen2 (isWordChar c)
      | false =>
        cases htry : tryKws kws (c :: rest) with
        | some p =>
          obtain ⟨kw, after⟩ := p
          have hocc : occursWB false kws (c :: rest) := by
            obtain ⟨kw2, hm2, hf2⟩ := firstSome_eq_some _ _ _ htry
            cases hmk : matchKwAt kw2 (c :: rest) with
            | none => rw [hmk] at hf2; cases hf2
            | some rest2 =>
              rw [hmk] at hf2
              obtain ⟨heq2, hafter2⟩ := matchKwAt_some kw2 (c :: rest) rest2 hmk
              exact ⟨kw2, hm2, [], rest2, by simpa using heq2, rfl, hafter2⟩
          have hne : findallGo kws (fuel + 1) false (c :: rest) =
              kw :: findallGo kws fuel true after := by
            simp [findallGo, htry]
          rw [hne]
          exact iff_of_false (by simp) (not_not_intro hocc)
        | none =>
          have hnone : ∀ kw ∈ kws, matchKwAt kw (c :: rest) = none := by
            intro kw hkw
            have := (firstSome_eq_none _ (kws)).mp htry kw hkw
            cases hmk : matchKwAt kw (c :: rest) with
            | none => rfl
            | some r => rw [hmk] at this; simp at this
          have hred : findallGo kws (fuel + 1) false (c :: rest) =
              findallGo kws fuel (isWordChar c) rest := by
            simp [findallGo, htry]
          rw [hred, occursWB_shift kws c rest false (Or.inr hnone)]
          exact ih rest hlen2 (isWordChar c)

theorem pyFindall_eq_nil_iff (kws : List String) (h : ∀ kw ∈ kws, kw ≠ "")
    (t : String) : pyFindall kws t = [] ↔ ¬ kwOccurs kws t := by
  rw [pyFindall, kwOccurs, List.map_eq_nil_iff]
  refine findallGo_eq_nil_iff (kws.map String.data) ?_ t.data.length t.data le_rfl false
  intro kw hkw hnil
  obtain ⟨s, hs, rfl⟩ := List.mem_map.mp hkw
  exact h s hs (by cases s; simp_all)

theorem findallGo_subset (kws : List (List Char)) :
    ∀ (fuel : Nat) (prev : Bool) (cs : List Char),
      ∀ x ∈ findallGo kws fuel prev cs, x ∈ kws := by
  intro fuel
  induction fuel with
  | zero => intro prev cs x hx; simp [findallGo] at hx
  | succ fuel ih =>
    intro prev cs x hx
    cases cs with
    | nil => simp [findallGo] at hx
    | cons c rest =>
      cases prev with
      | true => exact ih (isWordChar c) rest x hx
      | false =>
        cases htry : tryKws kws (c :: rest) with
        | some p =>
          obtain ⟨kw, after⟩ := p
          have hne : findallGo kws (fuel + 1) false (c :: rest) =
              kw :: findallGo kws fuel true after := by
            simp [findallGo, htry]
          rw [hne] at hx
          rcases List.mem_cons.mp hx with h | h
          · subst h
            obtain ⟨kw2, hm2, hf2⟩ := firstSome_eq_some _ _ _ htry
            cases hmk : matchKwAt kw2 (c :: rest) with
            | none => rw [hmk] at hf2; cases hf2
            | some r2 =>
              rw [hmk] at hf2
              cases hf2
              exact hm2
          · exact ih true after x h
        | none =>
          have hred : findallGo kws (fuel + 1) false (c :: rest) =
              findallGo kws fuel (isWordChar c) rest := by
            simp [findallGo, htry]
          rw [hred] at hx
          exact ih (isWordChar c) rest x hx

theorem pyFindall_subset (kws : List String) (t : String) :
    ∀ x ∈ pyFindall kws t, x ∈ kws := by
  intro x hx
  obtain ⟨l, hl, rfl⟩ := List.mem_map.mp hx
  have := findallGo_subset (kws.map String.data) t.data.length false t.data l hl
  obtain ⟨s, hs, rfl⟩ := List.mem_map.mp this
  exact hs

theorem pySetList_eq_firstKeys : pySetList = firstKeys := rfl

theorem mem_pySetList (x : String) (l : List String) : x ∈ pySetList l ↔ x ∈ l := by
  rw [pySetList_eq_firstKeys]
  exact mem_firstKeys x l

theorem pySetList_nodup (l : List String) : (pySetList l).Nodup := by
  rw [pySetList_eq_firstKeys]
  exact firstKeys_nodup l

theorem pySetList_toFinset (l : List String) : (pySetList l).toFinset = l.toFinset := by
  ext x
  simp [List.mem_toFinset, mem_pySetList]

theorem pySetList_eq_nil_iff (l : List String) : pySetList l = [] ↔ l = [] := by
  constructor
  · intro h
    cases l with
    | nil => rfl
    | cons x xs =>
      have : x ∈ pySetList (x :: xs) := (mem_pySetList x _).mpr (by simp)
      rw [h] at this
      cases this
  · rintro rfl; rfl

theorem keyword_lists_disjoint :
    ∀ x ∈ NON_VEGETARIAN_KEYWORDS, x ∉ VEGETARIAN_KEYWORDS := by decide

theorem q06_eq : (0.6 : ℚ) = mkRat 6 10 := by
  rw [show (0.6 : ℚ) = Rat.ofScientific 6 true 1 from rfl, Rat.ofScientific_true_def]
  norm_num

theorem q07_eq : (0.7 : ℚ) = mkRat 7 10 := by
  rw [show (0.7 : ℚ) = Rat.ofScientific 7 true 1 from rfl, Rat.ofScientific_true_def]
  norm_num

theorem q01_eq : (0.1 : ℚ) = mkRat 1 10 := by
  rw [show (0.1 : ℚ) = Rat.ofScientific 1 true 1 from rfl, Rat.ofScientific_true_def]
  norm_num

theorem q1_eq : (1 : ℚ) = mkRat 1 1 := by
  rw [Rat.mkRat_one]
  norm_num

theorem q08_eq : (0.8 : ℚ) = mkRat 8 10 := by
  rw [show (0.8 : ℚ) = Rat.ofScientific 8 true 1 from rfl, Rat.ofScientific_true_def]
  norm_num

theorem q09_eq : (0.9 : ℚ) = mkRat 9 10 := by
  rw [show (0.9 : ℚ) = Rat.ofScientific 9 true 1 from rfl, Rat.ofScientific_true_def]
  norm_num

theorem q05_eq : (0.5 : ℚ) = mkRat 5 10 := by
  rw [show (0.5 : ℚ) = Rat.ofScientific 5 true 1 from rfl, Rat.ofScientific_true_def]
  norm_num

theorem keyword_classify_veg_only (d : String) (de : Option String)
    (h1 : pyFindall VEGETARIAN_KEYWORDS (queryText d de) ≠ [])
    (h2 : pyFindall NON_VEGETARIAN_KEYWORDS (queryText d de) = []) :
    keyword_classify d de =
      { is_vegetarian := some true, confidence := mkRat 8 10,
        matched_keywords := pySetList (pyFindall VEGETARIAN_KEYWORDS (queryText d de)) } := by
  have hN : pySetList (pyFindall NON_VEGETARIAN_KEYWORDS (queryText d de)) = [] :=
    (pySetList_eq_nil_iff _).mpr h2
  have hV : pySetList (pyFindall VEGETARIAN_KEYWORDS (queryText d de)) ≠ [] :=
    fun hh => h1 ((pySetList_eq_nil_iff _).mp hh)
  rw [keyword_classify]
  simp [hN, hV, List.isEmpty_iff]

theorem keyword_classify_nonveg_only (d : String) (de : Option String)
    (h1 : pyFindall NON_VEGETARIAN_KEYWORDS (queryText d de) ≠ [])
    (h2 : pyFindall VEGETARIAN_KEYWORDS (queryText d de) = []) :
    keyword_classify d de =
      { is_vegetarian := some false, confidence := mkRat 9 10,
        matched_keywords := pySetList (pyFindall NON_VEGETARIAN_KEYWORDS (queryText d de)) } := by
  have hV : pySetList (pyFindall VEGETARIAN_KEYWORDS (queryText d de)) = [] :=
    (pySetList_eq_nil_iff _).mpr h2
  have hN : pySetList (pyFindall NON_VEGETARIAN_KEYWORDS (queryText d de)) ≠ [] :=
    fun hh => h1 ((pySetList_eq_nil_iff _).mp hh)
  rw [keyword_classify]
  simp [hN, hV, List.isEmpty_iff]

theorem keyword_classify_both (d : String) (de : Option String)
    (h1 : pyFindall VEGETARIAN_KEYWORDS (queryText d de) ≠ [])
    (h2 : pyFindall NON_VEGETARIAN_KEYWORDS (queryText d de) ≠ []) :
    keyword_classify d de =
      { is_vegetarian := some false, confidence := mkRat 5 10,
        matched_keywords :=
          pySetList (pyFindall NON_VEGETARIAN_KEYWORDS (queryText d de)) ++
            pySetList (pyFindall VEGETARIAN_KEYWORDS (queryText d de)) } := by
  have hV : pySetList (pyFindall VEGETARIAN_KEYWORDS (queryText d de)) ≠ [] :=
    fun hh => h1 ((pySetList_eq_nil_iff _).mp hh)
  have hN : pySetList (pyFindall NON_VEGETARIAN_KEYWORDS (queryText d de)) ≠ [] :=
    fun hh => h2 ((pySetList_eq_nil_iff _).mp hh)
  rw [keyword_classify]
  simp [hN, hV, List.isEmpty_iff]

theorem keyword_classify_neither (d : String) (de : Option String)
    (h1 : pyFindall VEGETARIAN_KEYWORDS (queryText d de) = [])
    (h2 : pyFindall NON_VEGETARIAN_KEYWORDS (queryText d de) = []) :
    keyword_classify d de =
      { is_vegetarian := none, confidence := mkRat 0 1, matched_keywords := [] } := by
  have hV : pySetList (pyFindall VEGETARIAN_KEYWORDS (queryText d de)) = [] :=
    (pySetList_eq_nil_iff _).mpr h1
  have hN : pySetList (pyFindall NON_VEGETARIAN_KEYWORDS (queryText d de)) = [] :=
    (pySetList_eq_nil_iff _).mpr h2
  rw [keyword_classify]
  simp [hN, hV, List.isEmpty_iff]

theorem matched_sides_disjoint (d : String) (de : Option String) :
    List.Disjoint (pySetList (pyFindall NON_VEGETARIAN_KEYWORDS (queryText d de)))
      (pySetList (pyFindall VEGETARIAN_KEYWORDS (queryText d de))) := by
  intro a haN haV
  exact keyword_lists_disjoint a
    (pyFindall_subset _ _ a ((mem_pySetList a _).mp haN))
    ((pyFindall_subset _ _ a ((mem_pySetList a _).mp haV)))

/-! ## Lemmas about the coordinator -/

theorem qLe_eq_not_qLt (a b : ℚ) : qLe a b = !(qLt b a) := rfl

theorem foldl_partitionStep (threshold : ℚ)
    (classified : List (MenuItemInput × ClassificationResult)) :
    ∀ acc : List VegetarianItemOutput × List UncertainItemOutput,
      classified.foldl (partitionStep threshold) acc =
        (acc.1 ++ confidentSpec threshold classified,
         acc.2 ++ uncertainSpec threshold classified) := by
  induction classified with
  | nil => intro acc; simp [confidentSpec, uncertainSpec]
  | cons p rest ih =>
    intro acc
    rw [List.foldl_cons, ih (partitionStep threshold acc p)]
    cases hv : p.2.is_vegetarian <;> cases hlt : qLt p.2.confidence threshold
    · have hle : qLe threshold p.2.confidence = true := by
        rw [qLe_eq_not_qLt, hlt]; rfl
      simp [partitionStep, confidentSpec, uncertainSpec, List.filter_cons, hv, hlt, hle]
    · have hle : qLe threshold p.2.confidence = false := by
        rw [qLe_eq_not_qLt, hlt]; rfl
      simp [partitionStep, confidentSpec, uncertainSpec, List.filter_cons, hv, hlt, hle]
    · have hle : qLe threshold p.2.confidence = true := by
        rw [qLe_eq_not_qLt, hlt]; rfl
      simp [partitionStep, confidentSpec, uncertainSpec, List.filter_cons, hv, hlt, hle]
    · have hle : qLe threshold p.2.confidence = false := by
        rw [qLe_eq_not_qLt, hlt]; rfl
      simp [partitionStep, confidentSpec, uncertainSpec, List.filter_cons, hv, hlt, hle]

theorem calculate_total_eq (l : List ℚ) : calculate_total l = pyRound2 l.sum := by
  cases l with
  | nil =>
    rw [List.sum_nil]
    decide
  | cons x xs => simp [calculate_total, qSum_eq]

/-! ## Lemmas about review reconciliation -/

theorem flatMap_confirmed (m : List (String × Bool)) :
    ∀ l : List StoredItem,
      (l.flatMap fun it =>
        match List.lookup (normKey it.name) m with
        | some true =>
          [mkVegetarianItem it.name it.price (mkRat 1 1)
            "Confirmed vegetarian by human review"]
        | _ => []) =
      (l.filter fun it => List.lookup (normKey it.name) m = some true).map
        fun it => { name := it.name, price := it.price } := by
  intro l
  induction l with
  | nil => rfl
  | cons x xs ih =>
    rw [List.flatMap_cons, List.filter_cons, ih]
    cases hl : List.lookup (normKey x.name) m with
    | none => simp [hl]
    | some b =>
      cases b with
      | false => simp [hl]
      | true => simp [hl, mkVegetarianItem]

theorem submit_review_core_decomp (pending : PendingReview)
    (corrections : List ReviewCorrectionItem) :
    (submit_review_core pending corrections).vegetarian_items =
      (pending.confident_items.map fun it => VegetarianItem.mk it.name it.price) ++
        confirmedUncertain pending corrections := by
  rw [submit_review_core]
  simp only []
  rw [flatMap_confirmed]
  rfl

theorem submit_review_core_eta (pending : PendingReview)
    (corrections : List ReviewCorrectionItem) :
    submit_review_core pending corrections =
      { vegetarian_items := (submit_review_core pending corrections).vegetarian_items
        total_sum := pyRound2 (qSum
          (((submit_review_core pending corrections).vegetarian_items).map
            VegetarianItem.price)) } := rfl

theorem lookup_dictInsert (k2 k : String) (v : Bool) :
    ∀ m, List.lookup k2 (dictInsert m k v) =
      if k2 = k then some v else List.lookup k2 m := by
  intro m
  induction m with
  | nil =>
    by_cases hk : k2 = k
    · subst hk; simp [dictInsert, List.lookup]
    · have hb : (k2 == k) = false := beq_eq_false_iff_ne.mpr hk
      simp [dictInsert, List.lookup, hb, hk]
  | cons p rest ih =>
    obtain ⟨k3, v3⟩ := p
    by_cases h3 : k3 = k
    · subst h3
      by_cases hk : k2 = k3
      · subst hk; simp [dictInsert, List.lookup]
      · have hb : (k2 == k3) = false := beq_eq_false_iff_ne.mpr hk
        simp [dictInsert, List.lookup, hb, hk]
    · have hd : dictInsert ((k3, v3) :: rest) k v = (k3, v3) :: dictInsert rest k v := by
        simp [dictInsert, h3]
      rw [hd]
      by_cases hk : k2 = k3
      · subst hk
        simp [List.lookup, h3]
      · have hb : (k2 == k3) = false := beq_eq_false_iff_ne.mpr hk
        simp [List.lookup, hb, ih]

theorem lookup_foldl_dictInsert_congr (cs : List ReviewCorrectionItem) (k : String) :
    ∀ m1 m2 : List (String × Bool),
      (∀ k2, k2 ≠ k → List.lookup k2 m1 = List.lookup k2 m2) →
      ∀ k2, k2 ≠ k →
        List.lookup k2 (cs.foldl
          (fun m c => dictInsert m (normKey c.name) c.is_vegetarian) m1) =
        List.lookup k2 (cs.foldl
          (fun m c => dictInsert m (normKey c.name) c.is_vegetarian) m2) := by
  induction cs with
  | nil => intro m1 m2 h k2 hk; exact h k2 hk
  | cons c cs ih =>
    intro m1 m2 h k2 hk
    rw [List.foldl_cons, List.foldl_cons]
    refine ih _ _ ?_ k2 hk
    intro k3 hk3
    rw [lookup_dictInsert, lookup_dictInsert]
    by_cases hc : k3 = normKey c.name
    · simp [hc]
    · simp only [hc, if_false]
      exact h k3 hk3

theorem lookup_corrections_map_cons (c : ReviewCorrectionItem)
    (cs : List ReviewCorrectionItem) (k2 : String) (h : k2 ≠ normKey c.name) :
    List.lookup k2 (corrections_map (c :: cs)) =
      List.lookup k2 (corrections_map cs) := by
  rw [corrections_map, corrections_map, List.foldl_cons]
  refine lookup_foldl_dictInsert_congr cs (normKey c.name) _ [] ?_ k2 h
  intro k3 hk3
  rw [lookup_dictInsert]
  simp [hk3, List.lookup]

theorem storeGet_storeDelete (store : List (String × PendingReview)) (rid : String) :
    storeGet (storeDelete store rid) rid = none := by
  induction store with
  | nil => rfl
  | cons p rest ih =>
    obtain ⟨k, v⟩ := p
    by_cases hk : k = rid
    · subst hk
      have hdrop : storeDelete ((k, v) :: rest) k = storeDelete rest k := by
        simp [storeDelete, List.filter_cons]
      rw [hdrop]
      exact ih
    · have hb : (rid == k) = false := beq_eq_false_iff_ne.mpr (fun hh => hk hh.symm)
      have hkeep : storeDelete ((k, v) :: rest) rid = (k, v) :: storeDelete rest rid := by
        simp [storeDelete, List.filter_cons, hk]
      rw [hkeep]
      show List.lookup rid ((k, v) :: storeDelete rest rid) = none
      simp only [List.lookup, hb]
      exact ih

/-! ## Claims about the parser (C1, C7, C8) -/

/-- C1: the spec claims parsing `"Greek Salad $9.99\nGREEK SALAD $10.00\n"`
yields one item (Greek Salad, 10.00), the duplicate with the greater price
surviving deduplication, with a line treated as a section header iff its
punctuation-stripped lowercase form is a reserved label or it is entirely
uppercase with at most 3 whitespace-separated tokens. The header test is
exactly as claimed (third conjunct), but because `"GREEK SALAD $10.00"`
itself is entirely uppercase with 3 tokens (Python `isupper` ignores the
digits and symbols), the code treats that line as a header (second
conjunct) and the parse returns the single item (Greek Salad, 9.99)
(first conjunct) — contradicting the claimed result (Greek Salad, 10.00),
the spec scenario, and the unit test test_deduplicate_items, which
asserts the surviving price is 10.00. -/
theorem C1_greek_salad_parse :
    parse ["Greek Salad $9.99\nGREEK SALAD $10.00\n"] =
      [{ name := "Greek Salad", price := mkRat 999 100,
         description := none, category := none }] ∧
    is_section_header "GREEK SALAD $10.00" = true ∧
    (∀ line : String,
      is_section_header line =
        (SECTION_HEADERS.contains
            (pyStrip ⟨(pyStrip (pyLower line)).data.filter fun c => !isHeaderPunct c⟩)
          || (pyIsUpper line && decide ((pySplitWs line).length ≤ 3)))) := by
  refine ⟨by decide, by decide, ?_⟩
  intro line
  simp only [is_section_header]
  cases h1 : SECTION_HEADERS.contains
      (pyStrip ⟨(pyStrip (pyLower line)).data.filter fun c => !isHeaderPunct c⟩) <;>
    cases h2 : pyIsUpper line && decide ((pySplitWs line).length ≤ 3) <;>
      simp_all

/-- C7: over all inputs, the parser output is the deduplication of the
per-text candidates; deduplicated output has pairwise-distinct normalized
names; and the output is exactly: for each surviving normalized-name key
in first-occurrence insertion order, the first candidate of its group
attaining the greatest price (`bestOfGroup` folds with a strict
comparison, so the earliest maximal-price record survives ties). -/
theorem C7_deduplication :
    (∀ texts : List String, parse texts = deduplicate (texts.flatMap parse_single)) ∧
    (∀ items : List MenuItem,
      ((deduplicate items).map MenuItem.normalized_name).Nodup) ∧
    (∀ items : List MenuItem,
      deduplicate items =
        (firstKeys (items.map MenuItem.normalized_name)).filterMap
          fun k => bestOfGroup k items) :=
  ⟨fun _ => rfl, deduplicate_names_nodup, deduplicate_eq_spec⟩

/-- C8 counterexample: the claim says a recognized header sets the rolling
category to the title-cased original line stripped of the characters
`:-_=*#`. On `"DESSERTS:\nIce Cream $5.00"` the code sets the category to
`"Desserts:"` — `line.title()` of the stripped line, with the colon kept —
while the claimed value (title case of the punctuation-stripped line) is
`"Desserts"`. -/
theorem C8_counterexample :
    parse_single "DESSERTS:\nIce Cream $5.00" =
      [{ name := "Ice Cream", price := mkRat 5 1,
         description := none, category := some "Desserts:" }] ∧
    pyTitle (pyStrip ⟨("DESSERTS:").data.filter fun c => !isHeaderPunct c⟩) =
      "Desserts" ∧
    ("Desserts:" : String) ≠ "Desserts" :=
  ⟨by decide, by decide, by decide⟩

/-- C8 (amended): when a line is recognized as a section header, the
rolling current_category is set to the title-cased (whitespace-stripped)
original line — the punctuation `:-_=*#` is NOT removed — and that
category is attached to every item emitted from later lines of the same
text until the next header; the category restarts at `none` for each
text. `parseLinesSpec` is the claim-side recursion stating exactly this
line-by-line behaviour. -/
theorem C8_category_flow :
    (∀ text : String, parse_single text = parseLinesSpec (pySplitLines text) none) ∧
    (∀ texts : List String,
      parse texts =
        deduplicate (texts.flatMap fun t => parseLinesSpec (pySplitLines t) none)) := by
  refine ⟨parse_single_eq_spec, fun texts => ?_⟩
  unfold parse
  exact congrArg (fun f => deduplicate (texts.flatMap f)) (funext parse_single_eq_spec)

/-! ## Claim about the keyword engine (C9) -/

/-- C9: for every query (dish name with optional description), matching
is case-insensitive on word boundaries: the first two conjuncts say a
side contributes exactly when one of its keywords occurs in the
lowercased query text at word boundaries. If only vegetarian keywords
match, the verdict is vegetarian with confidence 0.80; if only
non-vegetarian keywords match, non_vegetarian with 0.90; if both match,
non_vegetarian with 0.50; if neither, unknown with 0.00 — in each case
with matched_keywords the de-duplicated (Nodup) union of the
contributing side(s). The last conjunct spot-checks case insensitivity
on the input of the spec: classify("TOFU") = classify("tofu"). -/
theorem C9_keyword_engine (dish : String) (descr : Option String) :
    (pyFindall VEGETARIAN_KEYWORDS (queryText dish descr) = [] ↔
      ¬ kwOccurs VEGETARIAN_KEYWORDS (queryText dish descr)) ∧
    (pyFindall NON_VEGETARIAN_KEYWORDS (queryText dish descr) = [] ↔
      ¬ kwOccurs NON_VEGETARIAN_KEYWORDS (queryText dish descr)) ∧
    (pyFindall VEGETARIAN_KEYWORDS (queryText dish descr) ≠ [] →
      pyFindall NON_VEGETARIAN_KEYWORDS (queryText dish descr) = [] →
      (keyword_classify dish descr).is_vegetarian = some true ∧
      (keyword_classify dish descr).confidence = (0.8 : ℚ) ∧
      (keyword_classify dish descr).matched_keywords.Nodup ∧
      (keyword_classify dish descr).matched_keywords.toFinset =
        (pyFindall VEGETARIAN_KEYWORDS (queryText dish descr)).toFinset) ∧
    (pyFindall NON_VEGETARIAN_KEYWORDS (queryText dish descr) ≠ [] →
      pyFindall VEGETARIAN_KEYWORDS (queryText dish descr) = [] →
      (keyword_classify dish descr).is_vegetarian = some false ∧
      (keyword_classify dish descr).confidence = (0.9 : ℚ) ∧
      (keyword_classify dish descr).matched_keywords.Nodup ∧
      (keyword_classify dish descr).matched_keywords.toFinset =
        (pyFindall NON_VEGETARIAN_KEYWORDS (queryText dish descr)).toFinset) ∧
    (pyFindall VEGETARIAN_KEYWORDS (queryText dish descr) ≠ [] →
      pyFindall NON_VEGETARIAN_KEYWORDS (queryText dish descr) ≠ [] →
      (keyword_classify dish descr).is_vegetarian = some false ∧
      (keyword_classify dish descr).confidence = (0.5 : ℚ) ∧
      (keyword_classify dish descr).matched_keywords.Nodup ∧
      (keyword_classify dish descr).matched_keywords.toFinset =
        (pyFindall NON_VEGETARIAN_KEYWORDS (queryText dish descr)).toFinset ∪
          (pyFindall VEGETARIAN_KEYWORDS (queryText dish descr)).toFinset) ∧
    (pyFindall VEGETARIAN_KEYWORDS (queryText dish descr) = [] →
      pyFindall NON_VEGETARIAN_KEYWORDS (queryText dish descr) = [] →
      keyword_classify dish descr =
        { is_vegetarian := none, confidence := 0, matched_keywords := [] }) ∧
    keyword_classify "TOFU" none = keyword_classify "tofu" none := by
  refine ⟨pyFindall_eq_nil_iff _ (by decide) _, pyFindall_eq_nil_iff _ (by decide) _,
    ?_, ?_, ?_, ?_, by decide⟩
  · intro h1 h2
    rw [keyword_classify_veg_only dish descr h1 h2]
    exact ⟨rfl, q08_eq.symm, pySetList_nodup _, pySetList_toFinset _⟩
  · intro h1 h2
    rw [keyword_classify_nonveg_only dish descr h1 h2]
    exact ⟨rfl, q09_eq.symm, pySetList_nodup _, pySetList_toFinset _⟩
  · intro h1 h2
    rw [keyword_classify_both dish descr h1 h2]
    refine ⟨rfl, q05_eq.symm, ?_, ?_⟩
    · exact List.Nodup.append (pySetList_nodup _) (pySetList_nodup _)
        (matched_sides_disjoint dish descr)
    · rw [List.toFinset_append, pySetList_toFinset, pySetList_toFinset]
  · intro h1 h2
    rw [keyword_classify_neither dish descr h1 h2]
    have : mkRat 0 1 = (0 : ℚ) := Rat.zero_mkRat 1
    rw [this]

/-- Witness for C9 at the conflicting query "vegetable chicken": both
sides match, and the verdict is non-vegetarian with confidence 0.5. -/
theorem C9_keyword_engine_witness :
    pyFindall VEGETARIAN_KEYWORDS (queryText "vegetable chicken" none) ≠ [] ∧
    pyFindall NON_VEGETARIAN_KEYWORDS (queryText "vegetable chicken" none) ≠ [] ∧
    (keyword_classify "vegetable chicken" none).is_vegetarian = some false ∧
    (keyword_classify "vegetable chicken" none).confidence = (0.5 : ℚ) := by
  have h := C9_keyword_engine "vegetable chicken" none
  exact ⟨by decide, by decide,
    (h.2.2.2.2.1 (by decide) (by decide)).1,
    (h.2.2.2.2.1 (by decide) (by decide)).2.1⟩

/-! ## Claims about the coordinator (C2, C3) -/

/-- C2: for every classified batch, if the uncertain partition (items
with confidence below the threshold) is non-empty, the coordinator emits
a NeedsReview envelope whose confident_items and uncertain_items are
the two partitions in input order and whose partial_sum is the sum of
the confident items prices rounded to 2 places; otherwise a Final
envelope whose vegetarian_items are exactly the confident vegetarian
items (is_vegetarian and confidence at or above the threshold) with
total_sum that same rounded sum; an item classified non-vegetarian with
confidence at or above the threshold enters neither partition. -/
theorem C2_batch_routing (threshold : ℚ) (rid : String)
    (classified : List (MenuItemInput × ClassificationResult)) :
    (uncertainSpec threshold classified ≠ [] →
      execute_batch threshold rid classified =
        .needs_review rid (confidentSpec threshold classified)
          (uncertainSpec threshold classified)
          (pyRound2 (((confidentSpec threshold classified).map
            VegetarianItemOutput.price).sum))) ∧
    (uncertainSpec threshold classified = [] →
      execute_batch threshold rid classified =
        .final (confidentSpec threshold classified)
          (pyRound2 (((confidentSpec threshold classified).map
            VegetarianItemOutput.price).sum)) rid) ∧
    (∀ p ∈ classified, p.2.is_vegetarian = false → threshold ≤ p.2.confidence →
      p ∉ classified.filter (fun q => q.2.is_vegetarian && qLe threshold q.2.confidence) ∧
      p ∉ classified.filter (fun q => qLt q.2.confidence threshold)) := by
  have hst : classified.foldl (partitionStep threshold) ([], []) =
      (confidentSpec threshold classified, uncertainSpec threshold classified) := by
    rw [foldl_partitionStep]
    simp
  refine ⟨?_, ?_, ?_⟩
  · intro hne
    rw [execute_batch, hst]
    have : (uncertainSpec threshold classified).isEmpty = false := by
      cases h : uncertainSpec threshold classified with
      | nil => exact absurd h hne
      | cons a l => rfl
    simp only [this, Bool.not_false, if_pos rfl, calculate_total_eq]
    rfl
  · intro hnil
    rw [execute_batch, hst, hnil]
    simp only [List.isEmpty_nil, Bool.not_true, Bool.false_eq_true, if_false,
      calculate_total_eq]
  · intro p hp hveg hconf
    constructor
    · intro hmem
      have := (List.mem_filter.mp hmem).2
      rw [hveg] at this
      simp at this
    · intro hmem
      have := (List.mem_filter.mp hmem).2
      have hlt : p.2.confidence < threshold := (qLt_iff _ _).mp this
      exact absurd hlt (not_lt.mpr hconf)

/-- Witness for C2: a single vegetarian item with confidence 0.55, below
the default threshold 0.7, makes the batch NeedsReview with that item
uncertain and partial_sum the rounded empty sum. -/
theorem C2_batch_routing_witness :
    uncertainSpec (mkRat 7 10) [(c2item, c2cls)] ≠ [] ∧
    execute_batch (mkRat 7 10) "req-1" [(c2item, c2cls)] =
      .needs_review "req-1" (confidentSpec (mkRat 7 10) [(c2item, c2cls)])
        (uncertainSpec (mkRat 7 10) [(c2item, c2cls)])
        (pyRound2 (((confidentSpec (mkRat 7 10) [(c2item, c2cls)]).map
          VegetarianItemOutput.price).sum)) := by
  refine ⟨by decide, ?_⟩
  exact (C2_batch_routing (mkRat 7 10) "req-1" [(c2item, c2cls)]).1 (by decide)

/-- C3: for every item where the LLM returned a verdict: if the keyword
engine returned a definite verdict with confidence at least 0.8 that
disagrees with the LLM, the combined verdict keeps the LLM boolean with
confidence min(LLM confidence, 0.6), the LLM reasoning with the note
appended, and method "combined"; otherwise the verdict is the LLM
verdict with method "llm+rag" and confidence rounded to 2 places, after
a +0.1 boost capped at 1.0 exactly when the top evidence item exists,
has similarity_score above 0.7 and agrees with the LLM. -/
theorem C3_combination (llm : LLMClassificationResponse)
    (kw : KeywordClassificationResult) (rag : List RAGEvidence) :
    (kw.is_vegetarian ≠ none → (0.8 : ℚ) ≤ kw.confidence →
      kw.is_vegetarian ≠ some llm.is_vegetarian →
      combine_classifications (some llm) kw rag =
        { is_vegetarian := llm.is_vegetarian
          confidence := min llm.confidence (0.6 : ℚ)
          reasoning := llm.reasoning ++ " (Note: keyword analysis suggests otherwise)"
          method := "combined" }) ∧
    ((kw.is_vegetarian = none ∨ kw.confidence < (0.8 : ℚ) ∨
        kw.is_vegetarian = some llm.is_vegetarian) →
      ((∃ top, rag.head? = some top ∧ (0.7 : ℚ) < top.similarity_score ∧
          top.is_vegetarian = llm.is_vegetarian) →
        combine_classifications (some llm) kw rag =
          { is_vegetarian := llm.is_vegetarian
            confidence := pyRound2 (min (llm.confidence + (0.1 : ℚ)) 1)
            reasoning := llm.reasoning
            method := "llm+rag" }) ∧
      ((¬ ∃ top, rag.head? = some top ∧ (0.7 : ℚ) < top.similarity_score ∧
          top.is_vegetarian = llm.is_vegetarian) →
        combine_classifications (some llm) kw rag =
          { is_vegetarian := llm.is_vegetarian
            confidence := pyRound2 llm.confidence
            reasoning := llm.reasoning
            method := "llm+rag" })) := by
  constructor
  · intro h1 h2 h3
    obtain ⟨kb, hkb⟩ := Option.ne_none_iff_exists.mp h1
    have hkb2 : kb ≠ llm.is_vegetarian := by
      intro he
      exact h3 (by rw [← hkb, he])
    have hconf : kwConflict kw llm.is_vegetarian = true := by
      rw [kwConflict, ← hkb]
      have hle : qLe (mkRat 8 10) kw.confidence = true :=
        (qLe_iff _ _).mpr (q08_eq ▸ h2)
      simp [hle, hkb2]
    rw [combine_classifications]
    simp only [hconf, eq_self_iff_true, if_true]
    rw [qMin_eq, q06_eq]
  · intro hnc
    have hconf : kwConflict kw llm.is_vegetarian = false := by
      rw [kwConflict]
      rcases hnc with h | h | h
      · simp [h]
      · have : qLe (mkRat 8 10) kw.confidence = false := by
          cases hq : qLe (mkRat 8 10) kw.confidence with
          | false => rfl
          | true =>
            exact absurd ((qLe_iff _ _).mp hq) (not_le.mpr (q08_eq ▸ h))
        simp [this]
      · rcases hk : kw.is_vegetarian with _ | kb
        · simp
        · rw [hk] at h
          have : kb = llm.is_vegetarian := Option.some.inj h
          simp [this]
    constructor
    · rintro ⟨top, htop, hsim, hagree⟩
      rw [combine_classifications]
      have hb : (qLt (mkRat 7 10) top.similarity_score &&
          (top.is_vegetarian == llm.is_vegetarian)) = true := by
        have h1 : qLt (mkRat 7 10) top.similarity_score = true :=
          (qLt_iff _ _).mpr (q07_eq ▸ hsim)
        simp [h1, hagree]
      simp only [hconf, Bool.false_eq_true, if_false, htop, hb,
        eq_self_iff_true, if_true]
      rw [qMin_eq, qAdd_eq, q01_eq, q1_eq]
    · intro hno
      rw [combine_classifications]
      simp only [hconf, Bool.false_eq_true, if_false]
      cases htop : rag.head? with
      | none => rfl
      | some top =>
        have hb : (qLt (mkRat 7 10) top.similarity_score &&
            (top.is_vegetarian == llm.is_vegetarian)) = false := by
          by_cases hsim : (0.7 : ℚ) < top.similarity_score
          · by_cases hagree : top.is_vegetarian = llm.is_vegetarian
            · exact absurd ⟨top, htop, hsim, hagree⟩ hno
            · simp [hagree]
          · have : qLt (mkRat 7 10) top.similarity_score = false := by
              cases hq : qLt (mkRat 7 10) top.similarity_score with
              | false => rfl
              | true => exact absurd (q07_eq ▸ (qLt_iff _ _).mp hq) hsim
            simp [this]
        simp only [hb, Bool.false_eq_true, if_false]

/-- Witness for C3 at a conflicting pair: LLM says vegetarian at 0.9,
keywords say non-vegetarian at 0.9, no evidence; the combined verdict has
the LLM boolean, confidence min(0.9, 0.6), the noted reasoning and
method "combined". -/
theorem C3_combination_witness :
    combine_classifications
        (some { is_vegetarian := true, confidence := mkRat 9 10, reasoning := "r" })
        { is_vegetarian := some false, confidence := mkRat 9 10,
          matched_keywords := ["beef"] } [] =
      { is_vegetarian := true
        confidence := min (mkRat 9 10) (0.6 : ℚ)
        reasoning := "r" ++ " (Note: keyword analysis suggests otherwise)"
        method := "combined" } := by
  exact (C3_combination
      { is_vegetarian := true, confidence := mkRat 9 10, reasoning := "r" }
      { is_vegetarian := some false, confidence := mkRat 9 10,
        matched_keywords := ["beef"] } []).1
    (by decide) (by rw [q08_eq]; decide) (by decide)

/-! ## Claim about LLM response parsing (C4) -/

/-- C4 counterexample: the claim says a JSON object missing any of the
required fields is treated as a parse failure (null). The code instead
substitutes `dict.get` defaults: on the empty JSON object `{}` it
returns a verdict (False, 0.5, "No reasoning provided") rather than
null. -/
theorem C4_counterexample :
    parse_response_result (some (PyJson.obj [])) =
      some { is_vegetarian := false, confidence := mkRat 5 10,
             reasoning := "No reasoning provided" } ∧
    parse_response_result (some (PyJson.obj [])) ≠ none := by
  constructor
  · decide
  · decide

/-- C4 (amended): parsing returns null when the body is not valid JSON,
when the decoded value is not an object (the `.get` call raises
AttributeError, absorbed by the blanket handler of classify), and when a
numeric confidence lies outside [0, 1] (pydantic ValidationError, a
ValueError); but a JSON object missing the required fields is NOT a
parse failure — each missing field is substituted with its default
(is_vegetarian False, confidence 0.5, reasoning "No reasoning
provided"). -/
theorem C4_parse_nulls (j : PyJson) (fields : List (String × PyJson)) (q : ℚ) :
    (parse_response_result none = none) ∧
    ((∀ fs : List (String × PyJson), j ≠ PyJson.obj fs) →
      parse_response_result (some j) = none) ∧
    (List.lookup "is_vegetarian" fields = none →
      List.lookup "confidence" fields = none →
      List.lookup "reasoning" fields = none →
      parse_response_result (some (PyJson.obj fields)) =
        some { is_vegetarian := false, confidence := mkRat 5 10,
               reasoning := "No reasoning provided" }) ∧
    (List.lookup "confidence" fields = some (PyJson.num q) →
      ¬ ((0 : ℚ) ≤ q ∧ q ≤ 1) →
      parse_response_result (some (PyJson.obj fields)) = none) := by
  refine ⟨rfl, ?_, ?_, ?_⟩
  · intro hno
    cases j with
    | obj fs => exact absurd rfl (hno fs)
    | null => rfl
    | bool b => rfl
    | num n => rfl
    | str s => rfl
    | arr l => rfl
  · intro h1 h2 h3
    rw [parse_response_result, parse_response]
    rw [h1, h2, h3]
    have hok : (qLe (mkRat 0 1) (mkRat 5 10) && qLe (mkRat 5 10) (mkRat 1 1)) = true := by
      decide
    simp only [Option.getD_none, pyFloatOf, pyTruthy, pyStrOf, hok, if_true]
  · intro hc hrange
    rw [parse_response_result, parse_response, hc]
    have hcond : (qLe (mkRat 0 1) q && qLe q (mkRat 1 1)) = false := by
      by_cases h0 : (0 : ℚ) ≤ q
      · have h1 : ¬ q ≤ 1 := fun hh => hrange ⟨h0, hh⟩
        have h2 : qLe q (mkRat 1 1) = false := by
          cases hq : qLe q (mkRat 1 1) with
          | false => rfl
          | true => exact absurd (q1_eq ▸ (qLe_iff _ _).mp hq) h1
        rw [h2, Bool.and_false]
      · have h2 : qLe (mkRat 0 1) q = false := by
          cases hq : qLe (mkRat 0 1) q with
          | false => rfl
          | true =>
            refine absurd ?_ h0
            have hle := (qLe_iff _ _).mp hq
            calc (0 : ℚ) = mkRat 0 1 := (Rat.zero_mkRat 1).symm
              _ ≤ q := hle
        rw [h2, Bool.false_and]
    simp only [Option.getD_some, pyFloatOf, hcond, Bool.false_eq_true, if_false]

/-- Witness for C4 at a one-field object carrying an unrelated key: all
three lookups miss, and the defaults are substituted. -/
theorem C4_parse_nulls_witness :
    parse_response_result (some (PyJson.obj [("note", PyJson.null)])) =
      some { is_vegetarian := false, confidence := mkRat 5 10,
             reasoning := "No reasoning provided" } :=
  (C4_parse_nulls PyJson.null [("note", PyJson.null)] 0).2.2.1 rfl rfl rfl

/-! ## Claims about review reconciliation (C5, C6, C10) -/

/-- C5 counterexample: the claim says corrections are matched by a
lowercase, trimmed, whitespace-collapsed name. Stored uncertain item
"Greek  Salad" (double space) and correction "Greek Salad" have the same
whitespace-collapsed normalization (second conjunct), so the claim
predicts the item is confirmed into vegetarian_items; the code matches
by `lower().strip()` only, finds no correction, and returns an empty
vegetarian_items (first and third conjuncts). -/
theorem C5_counterexample :
    (submit_review_core c5pending c5corrections).vegetarian_items = [] ∧
    pyStrip ⟨collapseWsGo false (pyLower "Greek  Salad").data⟩ =
      pyStrip ⟨collapseWsGo false (pyLower "Greek Salad").data⟩ ∧
    VegetarianItem.mk "Greek  Salad" (mkRat 5 1) ∉
      (submit_review_core c5pending c5corrections).vegetarian_items := by
  refine ⟨by decide, by decide, by decide⟩

/-- C5 (amended): each uncertain item is matched against the corrections
by lowercase trimmed name (whitespace is NOT collapsed); an uncertain
item whose correction is present and true is appended to the Final
envelope vegetarian_items, constructed with confidence 1.0 and reasoning
"Confirmed vegetarian by human review" — but VegetarianItem declares
only name and price, so those two constructor arguments are discarded
(third conjunct); uncertain items with a false or absent correction are
omitted. -/
theorem C5_reconciliation (pending : PendingReview)
    (corrections : List ReviewCorrectionItem) :
    ((submit_review_core pending corrections).vegetarian_items =
      (pending.confident_items.map fun it => VegetarianItem.mk it.name it.price) ++
        confirmedUncertain pending corrections) ∧
    (∀ it ∈ pending.uncertain_items,
      List.lookup (normKey it.name) (corrections_map corrections) = some true →
      mkVegetarianItem it.name it.price (mkRat 1 1)
          "Confirmed vegetarian by human review" ∈
        (submit_review_core pending corrections).vegetarian_items) ∧
    (∀ n p c r, mkVegetarianItem n p c r = { name := n, price := p }) ∧
    (∀ s, normKey s = pyStrip (pyLower s)) := by
  refine ⟨submit_review_core_decomp pending corrections, ?_, fun _ _ _ _ => rfl,
    fun _ => rfl⟩
  intro it hit hlook
  rw [submit_review_core_decomp]
  refine List.mem_append_right _ ?_
  rw [confirmedUncertain]
  exact List.mem_map_of_mem _ (List.mem_filter.mpr ⟨hit, by simp [hlook]⟩)

/-- Witness for C5: the uncertain "Tofu Bowl" with correction
" TOFU BOWL " (upper case, padded) matches under lower+strip and is
confirmed into the result. -/
theorem C5_reconciliation_witness :
    List.lookup (normKey "Tofu Bowl") (corrections_map c5wcorrections) = some true ∧
    mkVegetarianItem "Tofu Bowl" (mkRat 9 1) (mkRat 1 1)
        "Confirmed vegetarian by human review" ∈
      (submit_review_core c5wpending c5wcorrections).vegetarian_items := by
  refine ⟨by decide, ?_⟩
  exact (C5_reconciliation c5wpending c5wcorrections).2.1
    { name := "Tofu Bowl", price := mkRat 9 1,
      confidence := some (mkRat 6 10), reasoning := none }
    (by decide) (by decide)

/-- C6: submitting corrections with a request_id absent from the review
store yields the ReviewNotFound outcome (none) with the store unchanged;
a successful reconciliation deletes the stored PendingReview, so the
request_id no longer resolves and an immediate repeat submission yields
ReviewNotFound with the store again unchanged. -/
theorem C6_review_not_found (store : List (String × PendingReview))
    (req : ReviewRequest) :
    (storeGet store req.request_id = none →
      submit_review store req = (store, none)) ∧
    (∀ pending, storeGet store req.request_id = some pending →
      (submit_review store req).2 =
        some (submit_review_core pending req.corrections) ∧
      storeGet (submit_review store req).1 req.request_id = none ∧
      submit_review (submit_review store req).1 req =
        ((submit_review store req).1, none)) := by
  constructor
  · intro h
    rw [submit_review, h]
  · intro pending h
    have hred : submit_review store req =
        (storeDelete store req.request_id,
         some (submit_review_core pending req.corrections)) := by
      rw [submit_review, h]
    rw [hred]
    refine ⟨rfl, storeGet_storeDelete store req.request_id, ?_⟩
    rw [submit_review, storeGet_storeDelete]

/-- Witness for C6 at a one-entry store: the present id reconciles and
deletes; the repeat submission returns ReviewNotFound. -/
theorem C6_review_not_found_witness :
    storeGet c6store "req-9" = some c6pending ∧
    (submit_review c6store c6req).2 =
      some (submit_review_core c6pending c6req.corrections) ∧
    storeGet (submit_review c6store c6req).1 "req-9" = none ∧
    submit_review (submit_review c6store c6req).1 c6req =
      ((submit_review c6store c6req).1, none) := by
  have h := (C6_review_not_found c6store c6req).2 c6pending (by decide)
  exact ⟨by decide, h.1, h.2.1, h.2.2⟩

/-- C10 (implicit): every stored confident_item is carried into the
Final envelope vegetarian_items unconditionally and unaltered, as the
prefix of the result in stored order, whatever the corrections say (even
a false correction matching its name); and a correction whose normalized
name matches no uncertain item changes nothing — corrections only affect
uncertain items. -/
theorem C10_confident_carryover (pending : PendingReview)
    (corrections : List ReviewCorrectionItem) (c : ReviewCorrectionItem) :
    ((submit_review_core pending corrections).vegetarian_items.take
        pending.confident_items.length =
      pending.confident_items.map fun it => VegetarianItem.mk it.name it.price) ∧
    (normKey c.name ∉ pending.uncertain_items.map (fun it => normKey it.name) →
      submit_review_core pending (c :: corrections) =
        submit_review_core pending corrections) := by
  constructor
  · rw [submit_review_core_decomp]
    rw [show pending.confident_items.length =
        (pending.confident_items.map fun it =>
          VegetarianItem.mk it.name it.price).length from (List.length_map _ _).symm]
    exact List.take_left _ _
  · intro hno
    have hlist : confirmedUncertain pending (c :: corrections) =
        confirmedUncertain pending corrections := by
      rw [confirmedUncertain, confirmedUncertain]
      have hfil : pending.uncertain_items.filter
          (fun it => List.lookup (normKey it.name)
            (corrections_map (c :: corrections)) = some true) =
          pending.uncertain_items.filter
          (fun it => List.lookup (normKey it.name)
            (corrections_map corrections) = some true) := by
        refine List.filter_congr ?_
        intro it hit
        have hne : normKey it.name ≠ normKey c.name := by
          intro he
          exact hno (he ▸ List.mem_map_of_mem (fun it => normKey it.name) hit)
        rw [lookup_corrections_map_cons c corrections _ hne]
      rw [hfil]
    have hveg : (submit_review_core pending (c :: corrections)).vegetarian_items =
        (submit_review_core pending corrections).vegetarian_items := by
      rw [submit_review_core_decomp, submit_review_core_decomp, hlist]
    rw [submit_review_core_eta pending (c :: corrections),
      submit_review_core_eta pending corrections, hveg]

/-- Witness for C10: a false correction naming the confident
"Greek Salad" (and no uncertain item) leaves the reconciliation result
unchanged, and the confident item is still carried over. -/
theorem C10_confident_carryover_witness :
    normKey c10corr.name ∉ c6pending.uncertain_items.map (fun it => normKey it.name) ∧
    submit_review_core c6pending [c10corr] = submit_review_core c6pending [] ∧
    (submit_review_core c6pending [c10corr]).vegetarian_items.take
        c6pending.confident_items.length =
      c6pending.confident_items.map fun it => VegetarianItem.mk it.name it.price := by
  have h := C10_confident_carryover c6pending [] c10corr
  exact ⟨by decide, h.2 (by decide), (C10_confident_carryover c6pending [c10corr] c10corr).1⟩

end MenuSpec
